import Mathlib

/-!
# Verification of the translate-dir-lib core

A shallow embedding, in Lean 4, of the content-addressed translation cache,
the XML envelope, and the retrieval-aware translation orchestrator of
`translate-dir-lib` (Python), together with proofs of the specification
claims about them.

Conventions of the embedding:

* Python strings are Lean `String`s (a sequence of unicode code points).
* SHA-256 (`calculate_checksum` in `trans_lib/helpers.py`) and the path
  checksum are modelled as abstract functions carried by an `Env` record:
  no claim depends on the internals of the hash, only on its use as a key.
  Hypotheses such as injectivity or non-emptiness (SHA-256 hex digests are
  64 characters and collision-free in the intended model) are stated
  explicitly where a claim needs them.
* The `xml.etree.ElementTree` library is external to the repository; its
  serialize/parse pair is modelled as the identity on the element tree, so
  `create_translation_xml` returns the tree it builds and
  `reconstruct_from_xml` consumes a tree.
* The on-disk cache (correspondence CSV, chunk-blob files, path map) is an
  explicit `CacheState` record threaded through the operations of
  `trans_lib/translation_cache/cache_backend.py`.  Directory existence is
  not tracked separately: a file exists iff a blob entry exists, and an
  empty directory is observationally equal to a missing one for every
  operation the claims touch.
* Python exceptions become `Except` values.
-/

namespace TransLib

/-! ## Enumerations (`trans_lib/enums.py`) -/

/-- `Language` from `trans_lib/enums.py`. -/
inductive Language
  | french
  | english
  | german
  | spanish
  | ukrainian
deriving DecidableEq, Repr

/-- `str(lang)`: the value of the `Language` enum member, used as a CSV
column name and as a cache directory name. -/
def Language.toName : Language → String
  | .french => "French"
  | .english => "English"
  | .german => "German"
  | .spanish => "Spanish"
  | .ukrainian => "Ukrainian"

/-- `DocumentType` from `trans_lib/enums.py`. -/
inductive DocumentType
  | jupyterNotebook
  | markdown
  | latex
  | other
deriving DecidableEq, Repr

/-- `ChunkType` from `trans_lib/enums.py`. -/
inductive ChunkType
  | myst
  | code
  | latex
  | other
deriving DecidableEq, Repr

/-! ## Segments and the XML envelope (`trans_lib/xml_manipulator_mod/mod.py`)

A chunker emits a list of `(kind, content)` tuples with kind `'text'` or
`'placeholder'`. -/

/-- The tag of a segment tuple: `'text'` or `'placeholder'`. -/
inductive SegKind
  | text
  | placeholder
deriving DecidableEq, Repr

/-- One segment `(kind, content)` of a chunker's output. -/
structure Seg where
  kind : SegKind
  content : String
deriving DecidableEq, Repr

/-- Concatenation of a list of strings (Python `"".join`). -/
def strConcat (l : List String) : String := l.foldr (· ++ ·) ""

/-- The contents of a whole segment stream in order, text and placeholders
alike. -/
def segConcat (segs : List Seg) : String := strConcat (segs.map Seg.content)

/-- Helper for the `itertools.groupby` step of `create_translation_xml`:
collects the maximal run of segments of kind `k` at the head of the list,
returning their contents and the remainder. -/
def takeRun (k : SegKind) : List Seg → (List String × List Seg)
  | [] => ([], [])
  | s :: rest =>
    if s.kind = k then
      let (xs, r) := takeRun k rest
      (s.content :: xs, r)
    else
      ([], s :: rest)

theorem takeRun_rest_length (k : SegKind) :
    ∀ l : List Seg, (takeRun k l).2.length ≤ l.length := by
  intro l
  induction l with
  | nil => simp [takeRun]
  | cons s rest ih =>
    by_cases h : s.kind = k
    · simp only [takeRun, h, if_pos rfl]
      exact le_trans ih (Nat.le_succ _)
    · simp [takeRun, h]

/-- Step 1 of `create_translation_xml`: coalesce consecutive placeholders
(`groupby` on the segment kind; text runs are re-emitted element-wise, a
placeholder run is joined and kept only if the joined content is
non-empty). -/
def mergeSegments : List Seg → List Seg
  | [] => []
  | ⟨.text, c⟩ :: rest =>
    Seg.mk .text c ::
      ((takeRun .text rest).1.map (Seg.mk .text) ++ mergeSegments (takeRun .text rest).2)
  | ⟨.placeholder, c⟩ :: rest =>
    let merged := strConcat (c :: (takeRun .placeholder rest).1)
    if merged = "" then mergeSegments (takeRun .placeholder rest).2
    else Seg.mk .placeholder merged :: mergeSegments (takeRun .placeholder rest).2
termination_by l => l.length
decreasing_by
  all_goals
    exact Nat.lt_succ_of_le (takeRun_rest_length _ _)

/-- A child element of the `<TEXT>` container as `ElementTree` presents it:
a tag, the optional `id` and `original` attributes, and the tail text that
follows the element (Python `None` and `""` behave identically in
`reconstruct_from_xml`, so the tail is a plain string). -/
structure XmlChild where
  tag : String
  id : Option String
  original : Option String
  tail : String
deriving DecidableEq, Repr

/-- The `<TEXT>` container: its leading text and its child elements. -/
structure TextContainer where
  text : String
  children : List XmlChild
deriving DecidableEq, Repr

/-- The `<document>` root; `textChild` is `root.find('TEXT')`. -/
structure XmlDoc where
  textChild : Option TextContainer
deriving DecidableEq, Repr

/-- Step 2 of `create_translation_xml`: build the mixed-content tree.
`txt` is the accumulated container text, `revChildren` the `<PH>` elements
built so far in reverse (the head is `last_element`), `n` the next
placeholder id.  Text attaches to the container until the first `<PH>`
exists and to the last `<PH>`'s tail afterwards. -/
def buildTextContainer : List Seg → String → List XmlChild → Nat → TextContainer
  | [], txt, revChildren, _ => ⟨txt, revChildren.reverse⟩
  | ⟨.text, c⟩ :: rest, txt, [], n => buildTextContainer rest (txt ++ c) [] n
  | ⟨.text, c⟩ :: rest, txt, ph :: phs, n =>
    buildTextContainer rest txt ({ ph with tail := ph.tail ++ c } :: phs) n
  | ⟨.placeholder, c⟩ :: rest, txt, phs, n =>
    buildTextContainer rest txt (⟨"PH", some (Nat.repr n), some c, ""⟩ :: phs) (n + 1)

/-- `create_translation_xml(segments)` from
`trans_lib/xml_manipulator_mod/mod.py`, up to `ElementTree` serialization
(modelled as the identity on the tree): coalesce consecutive placeholders,
then build one `<document><TEXT>` element with interleaved text and
self-closing `<PH id original/>` children. -/
def create_translation_xml (segments : List Seg) : XmlDoc :=
  ⟨some (buildTextContainer (mergeSegments segments) "" [] 1)⟩

/-- `reconstruct_from_xml(translated_xml)` from
`trans_lib/xml_manipulator_mod/mod.py`, taking the parsed tree: if the
`<TEXT>` child is absent return `""`; otherwise concatenate the container's
leading text, then for each child the `original` attribute when the tag is
`PH` and the attribute is present (unknown tags and missing `original` are
logged and skipped), followed by the child's tail text. -/
def reconstruct_from_xml (doc : XmlDoc) : String :=
  match doc.textChild with
  | none => ""
  | some tc =>
    tc.text ++ strConcat (tc.children.map fun el =>
      (if el.tag = "PH" then
        match el.original with
        | some orig => orig
        | none => ""
      else "") ++ el.tail)

/-! ### Round-trip lemmas for the XML envelope -/

theorem strConcat_nil : strConcat [] = "" := rfl

theorem strConcat_cons (x : String) (l : List String) :
    strConcat (x :: l) = x ++ strConcat l := rfl

theorem strConcat_append (a b : List String) :
    strConcat (a ++ b) = strConcat a ++ strConcat b := by
  induction a with
  | nil => simp [strConcat_nil, String.empty_append]
  | cons x xs ih =>
    simp [strConcat_cons, ih, String.append_assoc]

theorem segConcat_nil : segConcat [] = "" := rfl

theorem segConcat_cons (s : Seg) (l : List Seg) :
    segConcat (s :: l) = s.content ++ segConcat l := rfl

/-- Splitting off the head run preserves the concatenated contents. -/
theorem takeRun_concat (k : SegKind) :
    ∀ l : List Seg, strConcat (takeRun k l).1 ++ segConcat (takeRun k l).2 = segConcat l := by
  intro l
  induction l with
  | nil => simp [takeRun, strConcat_nil, segConcat_nil, String.empty_append]
  | cons s rest ih =>
    by_cases h : s.kind = k
    · have heq : takeRun k (s :: rest) =
          (s.content :: (takeRun k rest).1, (takeRun k rest).2) := by
        simp [takeRun, h]
      rw [heq]
      show strConcat (s.content :: (takeRun k rest).1) ++ segConcat (takeRun k rest).2 = _
      rw [strConcat_cons, String.append_assoc, ih, segConcat_cons]
    · have heq : takeRun k (s :: rest) = ([], s :: rest) := by
        simp [takeRun, h]
      rw [heq]
      simp [strConcat_nil, String.empty_append]

/-- Coalescing consecutive placeholders preserves the concatenated
contents. -/
theorem mergeSegments_concat : ∀ l : List Seg, segConcat (mergeSegments l) = segConcat l
  | [] => by simp [mergeSegments]
  | ⟨.text, c⟩ :: rest => by
    have ihrest := mergeSegments_concat (takeRun .text rest).2
    rw [mergeSegments, segConcat_cons]
    have hmap : segConcat ((takeRun .text rest).1.map (Seg.mk .text) ++
        mergeSegments (takeRun .text rest).2) =
        strConcat (takeRun .text rest).1 ++ segConcat (mergeSegments (takeRun .text rest).2) := by
      unfold segConcat
      rw [List.map_append, strConcat_append, List.map_map]
      have hid : (Seg.content ∘ Seg.mk SegKind.text) = id := by
        funext x
        rfl
      rw [hid, List.map_id]
    rw [hmap, ihrest, takeRun_concat]
    rfl
  | ⟨.placeholder, c⟩ :: rest => by
    have ihrest := mergeSegments_concat (takeRun .placeholder rest).2
    rw [mergeSegments]
    by_cases hz : strConcat (c :: (takeRun .placeholder rest).1) = ""
    · rw [if_pos hz, ihrest, segConcat_cons]
      have hsplit := takeRun_concat .placeholder rest
      rw [← hsplit, ← String.append_assoc, ← strConcat_cons, hz, String.empty_append]
    · rw [if_neg hz, segConcat_cons, ihrest]
      show strConcat (c :: (takeRun .placeholder rest).1) ++ segConcat (takeRun .placeholder rest).2 = _
      rw [strConcat_cons, String.append_assoc, takeRun_concat, segConcat_cons]
termination_by l => l.length
decreasing_by
  all_goals
    exact Nat.lt_succ_of_le (takeRun_rest_length _ _)

/-- The reconstruction contribution of one `<TEXT>` child. -/
def childPart (el : XmlChild) : String :=
  (if el.tag = "PH" then
    match el.original with
    | some orig => orig
    | none => ""
  else "") ++ el.tail

theorem reconstruct_eq_childPart (tc : TextContainer) :
    reconstruct_from_xml ⟨some tc⟩ = tc.text ++ strConcat (tc.children.map childPart) := rfl

/-- Invariant of the tree-building fold: the reconstruction of the result
equals the accumulated text, the reverse-accumulated children, and the
remaining segment contents, in order. -/
theorem buildTextContainer_reconstruct :
    ∀ (l : List Seg) (txt : String) (rev : List XmlChild) (n : Nat),
      (buildTextContainer l txt rev n).text ++
          strConcat ((buildTextContainer l txt rev n).children.map childPart) =
        txt ++ strConcat (rev.reverse.map childPart) ++ segConcat l
  | [], txt, rev, n => by
    simp [buildTextContainer, segConcat_nil, String.append_empty]
  | ⟨.text, c⟩ :: rest, txt, [], n => by
    have heq : buildTextContainer (⟨.text, c⟩ :: rest) txt [] n =
        buildTextContainer rest (txt ++ c) [] n := rfl
    rw [heq, buildTextContainer_reconstruct rest (txt ++ c) [] n]
    simp [strConcat_nil, segConcat_cons, String.append_assoc, String.append_empty]
  | ⟨.text, c⟩ :: rest, txt, ph :: phs, n => by
    have heq : buildTextContainer (⟨.text, c⟩ :: rest) txt (ph :: phs) n =
        buildTextContainer rest txt ({ ph with tail := ph.tail ++ c } :: phs) n := rfl
    rw [heq, buildTextContainer_reconstruct rest txt ({ ph with tail := ph.tail ++ c } :: phs) n]
    have hpart : childPart { ph with tail := ph.tail ++ c } = childPart ph ++ c := by
      unfold childPart
      simp [String.append_assoc]
    simp only [List.reverse_cons, List.map_append, strConcat_append, List.map_cons,
      List.map_nil, strConcat_cons, strConcat_nil, hpart, segConcat_cons]
    simp [String.append_assoc, String.append_empty]
  | ⟨.placeholder, c⟩ :: rest, txt, rev, n => by
    have heq : buildTextContainer (⟨.placeholder, c⟩ :: rest) txt rev n =
        buildTextContainer rest txt (⟨"PH", some (Nat.repr n), some c, ""⟩ :: rev) (n + 1) := rfl
    rw [heq,
      buildTextContainer_reconstruct rest txt (⟨"PH", some (Nat.repr n), some c, ""⟩ :: rev) (n + 1)]
    have hpart : childPart ⟨"PH", some (Nat.repr n), some c, ""⟩ = c := by
      unfold childPart
      simp [String.append_empty]
    simp only [List.reverse_cons, List.map_append, strConcat_append, List.map_cons,
      List.map_nil, strConcat_cons, strConcat_nil, hpart, segConcat_cons]
    simp [String.append_assoc, String.append_empty]

/-- C1: XML envelope round-trip.  For every list of `(text|placeholder)`
segments, reconstructing from the envelope built by
`create_translation_xml` returns the concatenation of every Text and
Placeholder segment's string in their original order. -/
theorem C1_xml_envelope_roundtrip (segments : List Seg) :
    reconstruct_from_xml (create_translation_xml segments) = segConcat segments := by
  unfold create_translation_xml
  rw [reconstruct_eq_childPart, buildTextContainer_reconstruct]
  simp [strConcat_nil, String.empty_append, String.append_empty, mergeSegments_concat]

/-! ## The translator's metadata and strategy layer
(`trans_lib/translator_retrieval.py`) -/

/-- `Meta` from `trans_lib/translator_retrieval.py` (the `vocab` list only
feeds the prompt text, so its value is modelled as an opaque string). -/
structure Meta where
  chunk : String
  srcLang : Language
  tgtLang : Language
  docType : DocumentType
  chunkType : ChunkType
  vocab : Option String
  relPath : String
deriving DecidableEq, Repr

/-- A `Meta` or its `WithExampleMeta` upgrade carrying `(ex_src, ex_tgt)`. -/
inductive MetaLike
  | plain (m : Meta)
  | withExample (m : Meta) (exSrc exTgt : String)
deriving DecidableEq, Repr

/-- The strategy singletons of `STRATEGY_MAP`. -/
inductive StratKind
  | latex
  | myst
  | code
  | md
  | plain
deriving DecidableEq, Repr

/-- `STRATEGY_MAP` keyed by `(doc_type, chunk_type)`; `none` is Python's
`KeyError` on a missing key. -/
def STRATEGY_MAP : DocumentType → ChunkType → Option StratKind
  | .latex, .latex => some .latex
  | .jupyterNotebook, .myst => some .myst
  | .jupyterNotebook, .code => some .code
  | .markdown, .myst => some .md
  | .other, .other => some .plain
  | _, _ => none

/-! ## The abstract environment

SHA-256, path normalization, the chunkers, the `difflib` similarity ratio
and the prompt-building/post-processing pipelines are pure functions whose
internals no claim depends on; they are carried as parameters. -/

/-- The pure external functions of the embedding. `hash` is
`calculate_checksum` (SHA-256 hex over UTF-8); `normalize` and
`pathChecksum` model `normalize_relative_path` / `calculate_path_checksum`
(referenced from `trans_lib.helpers` but absent from src/; per spec §4.A a
POSIX normalization followed by SHA-256); `segsOf` is the per-chunk-type
chunker (`parse_latex`/`parse_myst`); `score` is `diff_score`
(`difflib.SequenceMatcher.ratio`); `promptOf`/`postOf` are each strategy's
prompt builder and post-processing pipeline
(`reconstruct_from_xml ∘ extract_translated_from_response` at runtime). -/
structure Env where
  hash : String → String
  normalize : String → String
  pathChecksum : String → String
  segsOf : ChunkType → String → List Seg
  score : String → String → ℚ
  promptOf : StratKind → MetaLike → String
  postOf : StratKind → String → String

/-! ## Cache backend state
(`trans_lib/translation_cache/cache_backend.py`) -/

def PATH_CHECKSUM_COLUMN : String := "path_checksum"

/-- One chunk-blob file `<cache>/<lang>/<path_hash>/<checksum>`; a file
directly under the language directory has `pathHash = ""` (as in
`_iter_lang_cache_files`). -/
structure Blob where
  lang : String
  pathHash : String
  checksum : String
  contents : String
deriving DecidableEq, Repr

/-- A correspondence row: the CSV dict, field name ↦ cell value.
`rget` returns `""` for an absent key, matching `row.get(col, "")` and the
`csv.DictReader` behaviour of filling every header field. -/
abbrev Row := List (String × String)

def rget (r : Row) (k : String) : String :=
  ((r.find? fun p => p.1 = k).map Prod.snd).getD ""

def rhas (r : Row) (k : String) : Bool :=
  r.any fun p => p.1 = k

/-- Dict assignment `row[k] = v`. -/
def rset (r : Row) (k v : String) : Row :=
  if rhas r k then r.map fun p => if p.1 = k then (k, v) else p
  else r ++ [(k, v)]

/-- The on-disk cache: the correspondence CSV (`none` = file absent),
the chunk-blob files, and `path_map.csv`. -/
structure CacheState where
  corr : Option (List String × List Row)
  blobs : List Blob
  pathMap : List (String × String)
deriving DecidableEq, Repr

def emptyCacheState : CacheState := ⟨none, [], []⟩

/-- `_ensure_path_field`: insert the `path_checksum` column at the front
when missing. -/
def _ensure_path_field (fields : List String) : List String :=
  if PATH_CHECKSUM_COLUMN ∈ fields then fields else PATH_CHECKSUM_COLUMN :: fields

/-- `register_path_hash`: normalize, hash, and record the path mapping;
raises (`.error`) on a hash collision with a different recorded path. -/
def register_path_hash (env : Env) (st : CacheState) (relativePath : String) :
    Except String (String × CacheState) :=
  let normalized := env.normalize relativePath
  let pathHash := env.pathChecksum normalized
  match st.pathMap.find? fun row => row.1 = pathHash with
  | some row =>
    if row.2 ≠ "" ∧ row.2 ≠ normalized then
      .error "Path hash collision"
    else
      .ok (pathHash, st)
  | none =>
    .ok (pathHash, { st with pathMap := st.pathMap ++ [(pathHash, normalized)] })

def blobExists (blobs : List Blob) (langName pathHash checksum : String) : Bool :=
  blobs.any fun b => b.lang = langName ∧ b.pathHash = pathHash ∧ b.checksum = checksum

/-- `add_contents_to_cache`: content-addressed write, no-op when the file
already exists; returns the checksum of the contents. -/
def add_contents_to_cache (env : Env) (st : CacheState) (contents : String)
    (lang : Language) (pathHash : String) : String × CacheState :=
  let checksum := env.hash contents
  if blobExists st.blobs lang.toName pathHash checksum then (checksum, st)
  else (checksum, { st with blobs := st.blobs ++ [⟨lang.toName, pathHash, checksum, contents⟩] })

/-- `read_cached_contents_by_lang` (via
`_read_contents_from_cache_by_checksum_in_dir`): scoped read of a blob. -/
def read_cached_contents_by_lang (st : CacheState) (checksum : String) (lang : Language)
    (pathHash : String) : Option String :=
  (st.blobs.find? fun b =>
    b.lang = lang.toName ∧ b.pathHash = pathHash ∧ b.checksum = checksum).map Blob.contents

/-- `read_correspondence_cache`: `none` when the file does not exist,
otherwise the fields (path column ensured) and rows. -/
def read_correspondence_cache (st : CacheState) : Option (List String × List Row) :=
  st.corr.map fun fr => (_ensure_path_field fr.1, fr.2)

/-- `ensure_correspondence_cache`: create the header-only file if absent. -/
def ensure_correspondence_cache (st : CacheState) : CacheState :=
  match st.corr with
  | some _ => st
  | none => { st with corr := some ([PATH_CHECKSUM_COLUMN], []) }

/-- `write_correspondence_cache`: rewrite the whole CSV. -/
def write_correspondence_cache (st : CacheState) (rows : List Row) (fields : List String) :
    CacheState :=
  { st with corr := some (_ensure_path_field fields, rows) }

/-- `add_lang_to_cache_data`: append the language column, filling existing
rows with empty cells. -/
def add_lang_to_cache_data (fields : List String) (rows : List Row) (lang : Language) :
    List String × List Row :=
  let fields := _ensure_path_field fields
  if lang.toName ∈ fields then (fields, rows)
  else (fields ++ [lang.toName], rows.map fun r => rset r lang.toName "")

/-- The row-skipping test of `find_correspondent_checksum` and
`set_checksum_pair_in_correspondence_cache`: a row is skipped when its
`path_checksum` cell is non-empty and differs from the query's hash (an
empty cell — a legacy row — matches every path). -/
def rowSkipsPath (row : Row) (pathHash : String) : Bool :=
  rget row PATH_CHECKSUM_COLUMN ≠ "" ∧ rget row PATH_CHECKSUM_COLUMN ≠ pathHash

/-- The row scan of `find_correspondent_checksum`: at the first non-skipped
row whose source cell equals the checksum, return the target cell if
non-empty and `none` otherwise (the scan stops either way). -/
def findRows (srcName tgtName srcChecksum pathHash : String) : List Row → Option String
  | [] => none
  | row :: rest =>
    if rowSkipsPath row pathHash then findRows srcName tgtName srcChecksum pathHash rest
    else if rget row srcName = srcChecksum then
      if rget row tgtName = "" then none else some (rget row tgtName)
    else findRows srcName tgtName srcChecksum pathHash rest

/-- `find_correspondent_checksum`. -/
def find_correspondent_checksum (st : CacheState) (srcChecksum : String)
    (srcLang tgtLang : Language) (pathHash : String) : Option String × CacheState :=
  if srcLang = tgtLang then (none, st)
  else
    match read_correspondence_cache st with
    | none => (none, ensure_correspondence_cache st)
    | some (fields, rows) =>
      if srcLang.toName ∈ fields ∧ tgtLang.toName ∈ fields then
        (findRows srcLang.toName tgtLang.toName srcChecksum pathHash rows, st)
      else (none, st)

/-- `do_translation_checksum_correspond_to_source`. -/
def do_translation_checksum_correspond_to_source (st : CacheState) (srcChecksum : String)
    (srcLang : Language) (tgtChecksum : String) (tgtLang : Language) (pathHash : String) :
    Bool × CacheState :=
  if tgtLang = srcLang then (false, st)
  else
    match find_correspondent_checksum st srcChecksum srcLang tgtLang pathHash with
    | (none, st) => (false, st)
    | (some trueTgtChecksum, st) => (decide (trueTgtChecksum = tgtChecksum), st)

/-- `do_translation_correspond_to_source`. -/
def do_translation_correspond_to_source (env : Env) (st : CacheState) (srcChecksum : String)
    (srcLang : Language) (tgtContents : String) (tgtLang : Language) (pathHash : String) :
    Bool × CacheState :=
  do_translation_checksum_correspond_to_source st srcChecksum srcLang
    (env.hash tgtContents) tgtLang pathHash

/-- The row scan of `set_checksum_pair_in_correspondence_cache`: update the
first non-skipped row whose source cell matches (setting its
`path_checksum` and target cells); `none` when no row matches. -/
def setRows (srcName tgtName srcChecksum tgtChecksum pathHash : String) :
    List Row → Option (List Row)
  | [] => none
  | row :: rest =>
    if rowSkipsPath row pathHash then
      (setRows srcName tgtName srcChecksum tgtChecksum pathHash rest).map (row :: ·)
    else if rget row srcName = srcChecksum then
      some (rset (rset row PATH_CHECKSUM_COLUMN pathHash) tgtName tgtChecksum :: rest)
    else
      (setRows srcName tgtName srcChecksum tgtChecksum pathHash rest).map (row :: ·)

/-- The fresh row appended by `set_checksum_pair_in_correspondence_cache`
when no existing row matches. -/
def newCorrespondenceRow (fields : List String)
    (srcName tgtName srcChecksum tgtChecksum pathHash : String) : Row :=
  rset (rset (rset (fields.map fun f => (f, "")) PATH_CHECKSUM_COLUMN pathHash)
    srcName srcChecksum) tgtName tgtChecksum

/-- `set_checksum_pair_in_correspondence_cache`. -/
def set_checksum_pair_in_correspondence_cache (st : CacheState) (srcChecksum : String)
    (srcLang : Language) (tgtChecksum : String) (tgtLang : Language) (pathHash : String) :
    CacheState :=
  if srcLang = tgtLang then st
  else
    let cacheData := read_correspondence_cache st
    let st := if cacheData.isNone then ensure_correspondence_cache st else st
    let fr := cacheData.getD ([], [])
    let fields := _ensure_path_field fr.1
    let fr1 := if srcLang.toName ∈ fields then (fields, fr.2)
      else add_lang_to_cache_data fields fr.2 srcLang
    let fr2 := if tgtLang.toName ∈ fr1.1 then fr1
      else add_lang_to_cache_data fr1.1 fr1.2 tgtLang
    match setRows srcLang.toName tgtLang.toName srcChecksum tgtChecksum pathHash fr2.2 with
    | some rows => write_correspondence_cache st rows fr2.1
    | none =>
      write_correspondence_cache st
        (fr2.2 ++ [newCorrespondenceRow fr2.1 srcLang.toName tgtLang.toName
          srcChecksum tgtChecksum pathHash]) fr2.1

/-! ## `TranslationCacheCsv`
(`trans_lib/translation_cache/translation_cache.py`) -/

/-- `TranslationCacheCsv.lookup`: return the cached target text if the pair
exists, else `none`. -/
def lookup (env : Env) (st : CacheState) (srcChecksum : String) (srcLang tgtLang : Language)
    (relativePath : String) : Except String (Option String × CacheState) := do
  let (pathHash, st) ← register_path_hash env st relativePath
  match find_correspondent_checksum st srcChecksum srcLang tgtLang pathHash with
  | (none, st) => .ok (none, st)
  | (some tgtChecksum, st) =>
    .ok (read_cached_contents_by_lang st tgtChecksum tgtLang pathHash, st)

/-- `TranslationCacheCsv.persist_pair`.  The two checksum arguments are
rebound from the texts before use, exactly as in the source. -/
def persist_pair (env : Env) (st : CacheState) (srcChecksumArg tgtChecksumArg : String)
    (srcLang tgtLang : Language) (srcText tgtText : String) (relativePath : String) :
    Except String CacheState := do
  let (pathHash, st) ← register_path_hash env st relativePath
  let (srcChecksum, st) := add_contents_to_cache env st srcText srcLang pathHash
  let (tgtChecksum, st) := add_contents_to_cache env st tgtText tgtLang pathHash
  .ok (set_checksum_pair_in_correspondence_cache st srcChecksum srcLang
    tgtChecksum tgtLang pathHash)

/-- `TranslationCacheCsv.get_contents_by_checksum`. -/
def get_contents_by_checksum (env : Env) (st : CacheState) (checksum : String)
    (lang : Language) (relativePath : String) : Except String (Option String × CacheState) := do
  let (pathHash, st) ← register_path_hash env st relativePath
  .ok (read_cached_contents_by_lang st checksum lang pathHash, st)

/-- The directory listing `<cache>/<lang>/<path_hash>/` (an empty listing
covers both a missing and an empty directory, which every caller treats
identically). -/
def dirFiles (blobs : List Blob) (langName pathHash : String) : List Blob :=
  blobs.filter fun b => b.lang = langName ∧ b.pathHash = pathHash

/-- `get_checksum_for_best_match_in_dir` from `trans_lib/diff.py`: fold the
directory, keeping the contents, file name and score of the best
`diff_score` match; returns `(checksum, score)`. -/
def get_checksum_for_best_match_in_dir (env : Env) (files : List Blob) (txt : String) :
    String × ℚ :=
  let best := files.foldl
    (fun acc b =>
      let score := env.score b.contents txt
      if score > acc.2.2 then (b.contents, b.checksum, score) else acc)
    ("", "", (0 : ℚ))
  (best.2.1, best.2.2)

/-- `TranslationCacheCsv.get_best_pair_example_from_cache`. -/
def get_best_pair_example_from_cache (env : Env) (st : CacheState) (lang tgtLang : Language)
    (txt relativePath : String) :
    Except String (Option (String × String × ℚ) × CacheState) := do
  let (pathHash, st) ← register_path_hash env st relativePath
  let files := dirFiles st.blobs lang.toName pathHash
  if files.isEmpty then .ok (none, st)
  else
    let (srcChecksum, score) := get_checksum_for_best_match_in_dir env files txt
    if srcChecksum = "" then .ok (none, st)
    else do
      let (src?, st) ← get_contents_by_checksum env st srcChecksum lang relativePath
      let (tgt?, st) ← lookup env st srcChecksum lang tgtLang relativePath
      match src?, tgt? with
      | some src, some tgt => .ok (some (src, tgt, score), st)
      | _, _ => .ok (none, st)

/-! ## The retry loop and the orchestrator
(`trans_lib/translator_retrieval.py`) -/

/-- The outcome of one `caller.call(prompt)` of the `ModelCaller`
transport: a response, `ModelOverloadedError`, or any other
`ApiCallError`. -/
inductive CallOutcome
  | ok (response : String)
  | overloaded
  | apiError (msg : String)
deriving DecidableEq, Repr

/-- A model caller's behaviour: the outcome of its `i`-th call. -/
abbrev ModelBehavior := Nat → CallOutcome

/-- An exception escaping one `strategy.run` attempt. -/
inductive RunFailure
  | overloaded
  | apiError (msg : String)
deriving DecidableEq, Repr

/-- Python `min(a, b)` on two rationals (the first argument on ties). -/
def qmin (a b : ℚ) : ℚ := if a ≤ b then a else b

/-- Python `max(a, b)` on two rationals. -/
def qmax (a b : ℚ) : ℚ := if b ≤ a then a else b

/-- The retry parameters of `ChunkTranslator.__init__` after clamping:
`attempts = max(1, a)`, `initial = max(0.0, d)`,
`max_delay = max(initial, m)`. -/
structure RetryConfig where
  attempts : Nat
  initialDelay : ℚ
  maxDelay : ℚ
deriving DecidableEq, Repr

def mkRetryConfig (attempts : Int) (initialDelay maxDelay : ℚ) : RetryConfig :=
  ⟨(if attempts ≤ 1 then 1 else attempts).toNat, qmax 0 initialDelay,
    qmax (qmax 0 initialDelay) maxDelay⟩

/-- The constructor defaults: `attempts=5`, `initial_delay=1.0`,
`max_delay=16.0`. -/
def defaultRetryConfig : RetryConfig := mkRetryConfig 5 1 16

instance {ε α : Type} [DecidableEq ε] [DecidableEq α] : DecidableEq (Except ε α) := fun x y =>
  match x, y with
  | .ok a, .ok b => if h : a = b then isTrue (by rw [h]) else isFalse (by simp [h])
  | .error a, .error b => if h : a = b then isTrue (by rw [h]) else isFalse (by simp [h])
  | .ok _, .error _ => isFalse (by simp)
  | .error _, .ok _ => isFalse (by simp)

/-- The observable behaviour of `_translate_with_retry`: its result, the
number of `strategy.run` attempts, and the backoff sleeps in order. -/
structure RetryResult where
  result : Except RunFailure String
  calls : Nat
  sleeps : List ℚ
deriving DecidableEq, Repr

/-- The `for attempt in range(1, attempts+1)` loop of
`_translate_with_retry`: `idx` is the 0-based attempt index, `remaining`
the attempts left (at least 1 after clamping; the 0 case is the vacuous
loop that Python never reaches), `delay` the current backoff.  Only
`ModelOverloadedError` is retried; on the final attempt the overload is
re-raised; otherwise sleep `min(delay, max_delay)` and double `delay`
capped at `max_delay`. -/
def retryLoop (run : Nat → Except RunFailure String) (maxDelay : ℚ) :
    Nat → Nat → ℚ → RetryResult
  | _, 0, _ => ⟨.error .overloaded, 0, []⟩
  | idx, remaining + 1, delay =>
    match run idx with
    | .ok s => ⟨.ok s, 1, []⟩
    | .error (.apiError e) => ⟨.error (.apiError e), 1, []⟩
    | .error .overloaded =>
      if remaining = 0 then ⟨.error .overloaded, 1, []⟩
      else
        let waitSeconds := qmin delay maxDelay
        let r := retryLoop run maxDelay (idx + 1) remaining (qmin (delay * 2) maxDelay)
        ⟨r.result, r.calls + 1, waitSeconds :: r.sleeps⟩

/-- `ChunkTranslator._translate_with_retry`; the initial delay honours
Python's `self._overload_initial_delay or 1.0` (a zero delay falls back to
1.0). -/
def _translate_with_retry (cfg : RetryConfig) (run : Nat → Except RunFailure String) :
    RetryResult :=
  retryLoop run cfg.maxDelay 0 cfg.attempts
    (if cfg.initialDelay = 0 then 1 else cfg.initialDelay)

/-- The prompt produced by a strategy's prompt builder;
`_identity_prompt_builder` of the code strategy returns the chunk itself. -/
def strategyPrompt (env : Env) (kind : StratKind) (meta : MetaLike) : String :=
  match kind with
  | .code =>
    match meta with
    | .plain m => m.chunk
    | .withExample m _ _ => m.chunk
  | _ => env.promptOf kind meta

/-- A strategy's post-processing; the code strategy's is `lambda r: r`. -/
def strategyPost (env : Env) (kind : StratKind) (raw : String) : String :=
  match kind with
  | .code => raw
  | _ => env.postOf kind raw

/-- One `strategy.run` attempt: build the prompt, call the model (the
caller is attached by `set_call_model` only when present and the strategy
is not the code strategy; otherwise `_dont_call_model` returns the prompt),
post-process. -/
def strategyRun (env : Env) (caller : Option ModelBehavior) (kind : StratKind)
    (meta : MetaLike) (idx : Nat) : Except RunFailure String :=
  let prompt := strategyPrompt env kind meta
  match caller with
  | some behavior =>
    if kind = .code then .ok (strategyPost env kind prompt)
    else
      match behavior idx with
      | .ok raw => .ok (strategyPost env kind raw)
      | .overloaded => .error .overloaded
      | .apiError e => .error (.apiError e)
  | none => .ok (strategyPost env kind prompt)

/-- Whether a `strategy.run` attempt invokes the model transport. -/
def callsModel (caller : Option ModelBehavior) (kind : StratKind) : Bool :=
  caller.isSome ∧ kind ≠ .code

/-- Modelled from the spec: `chunk_contains_ph_only` is imported from
`trans_lib.xml_manipulator_mod.mod` but its definition is absent from
src/.  Spec §4.D: "A chunk is **placeholder-only** if its segment list has
zero Text segments." -/
def chunk_contains_ph_only (env : Env) (chunk : String) (chunkType : ChunkType) : Bool :=
  ((env.segsOf chunkType chunk).filter fun s => s.kind = SegKind.text).isEmpty

/-- Python `not chunk.strip()`: true iff every character is whitespace
(including the empty chunk). -/
def stripIsEmpty (s : String) : Bool := s.data.all Char.isWhitespace

/-- The exceptions that can escape `translate_or_fetch`:
`ChunkTranslationFailed` (carrying the source chunk and the cause), the
`KeyError` of a missing `STRATEGY_MAP` entry, and the `ValueError` of a
path-hash collision. -/
inductive TransExc
  | chunkTranslationFailed (chunk : String) (cause : RunFailure)
  | keyError
  | valueError (msg : String)
deriving DecidableEq, Repr

/-- The observable behaviour of one `translate_or_fetch` call: the returned
text or exception, the final cache state, and the number of model-transport
calls made. -/
structure TransResult where
  outcome : Except TransExc String
  state : CacheState
  modelCalls : Nat
deriving DecidableEq, Repr

/-- `ChunkTranslator.translate_or_fetch`. -/
def translate_or_fetch (env : Env) (cfg : RetryConfig) (caller : Option ModelBehavior)
    (meta : Meta) (st : CacheState) : TransResult :=
  let chunk := meta.chunk
  if stripIsEmpty chunk then ⟨.ok chunk, st, 0⟩
  else
    let srcChecksum := env.hash chunk
    match lookup env st srcChecksum meta.srcLang meta.tgtLang meta.relPath with
    | .error e => ⟨.error (.valueError e), st, 0⟩
    | .ok (some cached, st1) => ⟨.ok cached, st1, 0⟩
    | .ok (none, st1) =>
      match STRATEGY_MAP meta.docType meta.chunkType with
      | none => ⟨.error .keyError, st1, 0⟩
      | some kind =>
        let phOnly := chunk_contains_ph_only env chunk meta.chunkType
        match get_best_pair_example_from_cache env st1 meta.srcLang meta.tgtLang chunk
          meta.relPath with
        | .error e => ⟨.error (.valueError e), st1, 0⟩
        | .ok (example?, st2) =>
          let upgraded : MetaLike :=
            match example? with
            | some (exSrc, exTgt, score) =>
              if score > (7 : ℚ) / 10 then .withExample meta exSrc exTgt else .plain meta
            | none => .plain meta
          if phOnly then
            let translated := chunk
            match persist_pair env st2 srcChecksum (env.hash translated) meta.srcLang
              meta.tgtLang chunk translated meta.relPath with
            | .error e => ⟨.error (.valueError e), st2, 0⟩
            | .ok st3 => ⟨.ok translated, st3, 0⟩
          else
            let retry := _translate_with_retry cfg (strategyRun env caller kind upgraded)
            let calls := if callsModel caller kind then retry.calls else 0
            match retry.result with
            | .error cause => ⟨.error (.chunkTranslationFailed chunk cause), st2, calls⟩
            | .ok translated =>
              match persist_pair env st2 srcChecksum (env.hash translated) meta.srcLang
                meta.tgtLang chunk translated meta.relPath with
              | .error e => ⟨.error (.valueError e), st2, calls⟩
              | .ok st3 => ⟨.ok translated, st3, calls⟩

/-! ## The notebook file loop
(`trans_lib/doc_translator_mod/notebook_file_translator.py`) -/

/-- A notebook cell: its type, source, metadata tags, the `src_checksum`
metadata entry and the `not-translated-due-to-exception` metadata flag. -/
structure NotebookCell where
  cellType : String
  source : String
  tags : List String
  srcChecksum : Option String
  notTranslatedFlag : Bool
deriving DecidableEq, Repr

def notTranslatedTag : String := "not-translated-due-to-exception"

/-- `translate_jupyter_cell_async`: tag the cell `needs_review`, record its
source checksum, translate via `translate_or_fetch` (code cells through
`CodeMeta`/`ChunkType.Code`, others through `ChunkType.Myst`); a
`ChunkTranslationFailed` is recovered by tagging the cell
`not-translated-due-to-exception` and writing the original chunk back;
other exceptions propagate. -/
def translate_jupyter_cell (env : Env) (cfg : RetryConfig) (caller : Option ModelBehavior)
    (cell : NotebookCell) (srcLang tgtLang : Language) (vocab : Option String)
    (relativePath : String) (st : CacheState) :
    Except TransExc (NotebookCell × CacheState × Nat) :=
  let checksum := env.hash cell.source
  let cell := { cell with tags := cell.tags ++ ["needs_review"], srcChecksum := some checksum }
  let meta : Meta :=
    { chunk := cell.source, srcLang := srcLang, tgtLang := tgtLang,
      docType := .jupyterNotebook,
      chunkType := if cell.cellType = "code" then .code else .myst,
      vocab := vocab, relPath := relativePath }
  let r := translate_or_fetch env cfg caller meta st
  match r.outcome with
  | .ok translated => .ok ({ cell with source := translated }, r.state, r.modelCalls)
  | .error (.chunkTranslationFailed chunk _) =>
    let tags := if notTranslatedTag ∈ cell.tags then cell.tags
      else cell.tags ++ [notTranslatedTag]
    .ok ({ cell with tags := tags, notTranslatedFlag := true, source := chunk },
      r.state, r.modelCalls)
  | .error e => .error e

/-- `translate_notebook_async`: translate the cells in document order,
threading the cache state. -/
def translate_notebook (env : Env) (cfg : RetryConfig) (caller : Option ModelBehavior)
    (srcLang tgtLang : Language) (vocab : Option String) (relativePath : String) :
    List NotebookCell → CacheState → Except TransExc (List NotebookCell × CacheState × Nat)
  | [], st => .ok ([], st, 0)
  | cell :: rest, st => do
    let (cell', st', c1) ←
      translate_jupyter_cell env cfg caller cell srcLang tgtLang vocab relativePath st
    let (rest', st'', c2) ←
      translate_notebook env cfg caller srcLang tgtLang vocab relativePath rest st'
    .ok (cell' :: rest', st'', c1 + c2)

/-! ## The cache cleaner
(`trans_lib/translation_cache/cache_cleaner.py`) -/

/-- `CacheClearStats` of `clear_missing_chunks`. -/
structure CacheClearStats where
  removedRows : Nat
  clearedFields : Nat
  removedSourceChunks : Nat
deriving DecidableEq, Repr

/-- `CacheDeleteStats` of `clear_all`. -/
structure CacheDeleteStats where
  removedRows : Nat
  clearedFields : Nat
  removedChunkFiles : Nat
deriving DecidableEq, Repr

/-- `_checksum_file_exists`: the named checksum is non-empty and its blob
file exists under `<lang>/<path_hash>/` (or directly under `<lang>/` when
the path hash is empty). -/
def _checksum_file_exists (blobs : List Blob) (langName pathHash checksum : String) : Bool :=
  checksum ≠ "" ∧ blobExists blobs langName pathHash checksum

/-- `_row_has_any_language_values`: some non-`path_checksum` field of the
row is non-empty. -/
def _row_has_any_language_values (row : Row) (fields : List String) : Bool :=
  fields.any fun field => field ≠ PATH_CHECKSUM_COLUMN ∧ rget row field ≠ ""

/-- The target columns `clear_missing_chunks` inspects: every field other
than `path_checksum` and the source-language column. -/
def targetColumns (fields : List String) (srcCol : String) : List String :=
  fields.filter fun field => field ≠ PATH_CHECKSUM_COLUMN ∧ field ≠ srcCol

/-- The per-row pass of `clear_missing_chunks`: `none` drops the row (empty
or missing source, or no surviving target); otherwise the cleaned row, the
number of cleared target cells, and the `(path_hash, src_checksum)` pair
the row references. -/
def clearMissingRow (blobs : List Blob) (srcCol : String) (targetCols : List String)
    (row : Row) : Option (Row × Nat × (String × String)) :=
  let pathHash := rget row PATH_CHECKSUM_COLUMN
  let srcChecksum := rget row srcCol
  if srcChecksum = "" then none
  else if ¬ _checksum_file_exists blobs srcCol pathHash srcChecksum then none
  else
    let presentTargets := targetCols.countP fun col =>
      rget row col ≠ "" ∧ _checksum_file_exists blobs col pathHash (rget row col)
    let missingTargets := targetCols.filter fun col =>
      rget row col ≠ "" ∧ ¬ _checksum_file_exists blobs col pathHash (rget row col)
    if presentTargets = 0 then none
    else some (missingTargets.foldl (fun r col => rset r col "") row,
      missingTargets.length, (pathHash, srcChecksum))

/-- `clear_missing_chunks(root_path, source_lang)`: drop rows whose source
cell is empty or whose source blob is missing, clear target cells whose
blob is missing, drop rows with no surviving target, then delete
source-language blob files no surviving row references. -/
def clear_missing_chunks (st : CacheState) (sourceLang : Language) :
    CacheState × CacheClearStats :=
  let srcCol := sourceLang.toName
  let sourceFiles := st.blobs.filter fun b => b.lang = srcCol
  match read_correspondence_cache st with
  | none =>
    ({ st with blobs := st.blobs.filter fun b => b.lang ≠ srcCol },
      ⟨0, 0, sourceFiles.length⟩)
  | some (fields, rows) =>
    let targetCols := targetColumns fields srcCol
    let outcomes := rows.map (clearMissingRow st.blobs srcCol targetCols)
    let remainingRows : List Row := outcomes.filterMap (Option.map Prod.fst)
    let removedRows : Nat := outcomes.countP Option.isNone
    let clearedFields : Nat := (outcomes.filterMap (Option.map fun x => x.2.1)).sum
    let referenced : List (String × String) := outcomes.filterMap (Option.map fun x => x.2.2)
    let stAfterRows :=
      if removedRows > 0 ∨ clearedFields > 0 then
        write_correspondence_cache st remainingRows fields
      else st
    let keptBlobs := stAfterRows.blobs.filter fun b =>
      b.lang ≠ srcCol ∨ (b.pathHash, b.checksum) ∈ referenced
    let removedSourceChunks := sourceFiles.countP fun b => (b.pathHash, b.checksum) ∉ referenced
    ({ stAfterRows with blobs := keptBlobs },
      ⟨removedRows, clearedFields, removedSourceChunks⟩)

/-- `clear_all(root_path, lang, relative_path)` as it stands in
`cache_cleaner.py` (no keyword filter; see `clear_all_with_keyword` for the
spec-modelled keyword selector).  Chunk-file deletion per the four-way
selector, then the row pass. -/
def clear_all (env : Env) (st : CacheState) (lang : Option Language)
    (relativePath : Option String) : CacheState × CacheDeleteStats :=
  let pathHash := match relativePath with
    | some rel => if rel = "" then "" else env.pathChecksum (env.normalize rel)
    | none => ""
  let removePred : Blob → Bool := fun b =>
    match lang with
    | some l => b.lang = l.toName ∧ (pathHash = "" ∨ b.pathHash = pathHash)
    | none => pathHash = "" ∨ b.pathHash = pathHash
  let removedChunkFiles := (st.blobs.filter removePred).length
  let st := { st with blobs := st.blobs.filter fun b => ¬ removePred b }
  match read_correspondence_cache st with
  | none => (st, ⟨0, 0, removedChunkFiles⟩)
  | some (fields, rows) =>
    let langField := match lang with
      | some l => l.toName
      | none => ""
    let step : Row → (Option Row × Nat × Nat) := fun row =>
      if pathHash ≠ "" ∧ rget row PATH_CHECKSUM_COLUMN ≠ pathHash then (some row, 0, 0)
      else if langField ≠ "" then
        let (row, cleared) :=
          if langField ∈ fields ∧ rget row langField ≠ "" then (rset row langField "", 1)
          else (row, 0)
        if _row_has_any_language_values row fields then (some row, cleared, 0)
        else (none, cleared, 1)
      else (none, 0, 1)
    let outcomes := rows.map step
    let remainingRows : List Row := outcomes.filterMap Prod.fst
    let clearedFields : Nat := (outcomes.map fun o => o.2.1).sum
    let removedRows : Nat := (outcomes.map fun o => o.2.2).sum
    let st :=
      if removedRows > 0 ∨ clearedFields > 0 then
        write_correspondence_cache st remainingRows fields
      else st
    (st, ⟨removedRows, clearedFields, removedChunkFiles⟩)

/-- Python `needle in haystack` on strings: case-sensitive substring
containment over the character sequences. -/
def containsSub (needle : List Char) : List Char → Bool
  | [] => needle.isEmpty
  | c :: rest => needle.isPrefixOf (c :: rest) || containsSub needle rest

/-- The keyword test of the spec-modelled keyword selector: the row's
source-language blob (the file named by the row's source cell under the
row's path hash) exists and its content contains the keyword as a
case-sensitive substring. -/
def keywordRowMatches (blobs : List Blob) (srcCol keyword : String) (row : Row) : Bool :=
  match blobs.find? fun b =>
    b.lang = srcCol ∧ b.pathHash = rget row PATH_CHECKSUM_COLUMN ∧
      b.checksum = rget row srcCol with
  | some blob => containsSub keyword.data blob.contents.data
  | none => false

/-- Modelled from the spec: the keyword selector of the cache-clear
operation.  The CLI (`cli.py`) passes `--keyword` to
`Project.clear_translation_cache_all(lang, relative_path, keyword)`, but
that `Project` method is absent from src/ (only its caller and the
keyword-less `clear_all` above exist).  Spec §4.I: with neither a language
nor a path selector ("all" mode), the keyword "restrict[s] to rows whose
source-language blob's content contains the keyword (case-sensitive
substring)"; deletion reports
`(rows_removed, fields_cleared, chunk_files_removed)`.  A removed row's
referenced chunk files are deleted with it. -/
def clear_all_with_keyword (st : CacheState) (sourceLang : Language) (keyword : String) :
    CacheState × CacheDeleteStats :=
  match read_correspondence_cache st with
  | none => (st, ⟨0, 0, 0⟩)
  | some (fields, rows) =>
    let rowMatches : Row → Bool := keywordRowMatches st.blobs sourceLang.toName keyword
    let removed := rows.filter rowMatches
    let remainingRows := rows.filter fun row => ! rowMatches row
    let blobRemoved : Blob → Bool := fun b =>
      removed.any fun row =>
        rget row PATH_CHECKSUM_COLUMN = b.pathHash ∧
          fields.any fun f => f ≠ PATH_CHECKSUM_COLUMN ∧ f = b.lang ∧ rget row f = b.checksum
    let removedChunkFiles := (st.blobs.filter blobRemoved).length
    let stOut : CacheState :=
      { st with
        corr := some (fields, remainingRows)
        blobs := st.blobs.filter fun b => ! blobRemoved b }
    (stOut, ⟨removed.length, 0, removedChunkFiles⟩)

/-! ## Row and field lemmas -/

theorem rget_nil (k : String) : rget ([] : Row) k = "" := rfl

theorem rget_cons (p : String × String) (rest : Row) (k : String) :
    rget (p :: rest) k = if p.1 = k then p.2 else rget rest k := by
  by_cases h : p.1 = k <;> simp [rget, List.find?_cons, h]

theorem rget_append_single_of_not_rhas (r : Row) (k v : String) (h : rhas r k = false) :
    rget (r ++ [(k, v)]) k = v := by
  induction r with
  | nil => simp [rget]
  | cons p rest ih =>
    simp only [rhas, List.any_cons, Bool.or_eq_false_iff] at h
    have hp : ¬ p.1 = k := by
      intro hk
      simp [hk] at h
    have hrest : rhas rest k = false := by
      simpa [rhas] using h.2
    simp [List.cons_append, rget_cons, hp, ih hrest]

theorem rget_rset_self (r : Row) (k v : String) : rget (rset r k v) k = v := by
  unfold rset
  by_cases h : rhas r k
  · simp only [if_pos h]
    induction r with
    | nil => simp [rhas] at h
    | cons p rest ih =>
      by_cases hp : p.1 = k
      · simp [rget_cons, hp]
      · have hrest : rhas rest k := by
          simp only [rhas, List.any_cons] at h
          rcases Bool.or_eq_true_iff.mp h with h1 | h2
          · exact absurd (by simpa using h1) hp
          · simpa [rhas] using h2
        simpa [rget_cons, hp] using ih hrest
  · simp only [if_neg h]
    exact rget_append_single_of_not_rhas r k v (by simpa using h)

theorem rget_map_subst (k v k' : String) (h : k' ≠ k) :
    ∀ r : Row, rget (r.map fun p => if p.1 = k then (k, v) else p) k' = rget r k' := by
  intro r
  induction r with
  | nil => rfl
  | cons p rest ih =>
    by_cases hp : p.1 = k
    · simp only [List.map_cons, if_pos hp]
      rw [rget_cons, rget_cons]
      simp [Ne.symm h, hp, ih]
    · simp only [List.map_cons, if_neg hp]
      rw [rget_cons, rget_cons]
      by_cases hpk : p.1 = k' <;> simp [hpk, ih]

theorem rget_append_single_ne (k v k' : String) (h : k' ≠ k) :
    ∀ r : Row, rget (r ++ [(k, v)]) k' = rget r k' := by
  intro r
  induction r with
  | nil => simp [rget, List.find?, Ne.symm h]
  | cons p rest ih =>
    rw [List.cons_append, rget_cons, rget_cons]
    by_cases hpk : p.1 = k' <;> simp [hpk, ih]

theorem rget_rset_ne (r : Row) (k v k' : String) (h : k' ≠ k) :
    rget (rset r k v) k' = rget r k' := by
  unfold rset
  by_cases hr : rhas r k
  · simp only [if_pos hr]
    exact rget_map_subst k v k' h r
  · simp only [if_neg hr]
    exact rget_append_single_ne k v k' h r

theorem mem_ensure_path_field (fields : List String) (x : String) (h : x ∈ fields) :
    x ∈ _ensure_path_field fields := by
  unfold _ensure_path_field
  by_cases hp : PATH_CHECKSUM_COLUMN ∈ fields <;> simp [hp, h]

theorem path_mem_ensure_path_field (fields : List String) :
    PATH_CHECKSUM_COLUMN ∈ _ensure_path_field fields := by
  unfold _ensure_path_field
  by_cases hp : PATH_CHECKSUM_COLUMN ∈ fields <;> simp [hp]

theorem ensure_path_field_of_mem (fields : List String)
    (h : PATH_CHECKSUM_COLUMN ∈ fields) : _ensure_path_field fields = fields := by
  simp [_ensure_path_field, h]

/-! ## Language-name facts -/

theorem Language.toName_injective : Function.Injective Language.toName := by
  intro a b h
  cases a <;> cases b <;> first
    | rfl
    | simp [Language.toName] at h

theorem Language.toName_ne_path_column (l : Language) :
    l.toName ≠ PATH_CHECKSUM_COLUMN := by
  cases l <;> decide

/-! ## C9: same-language degeneracy -/

/-- C9: for equal source and target languages the cache interface is a
read-and-write no-op: `find_correspondent_checksum` returns `none`,
`set_checksum_pair_in_correspondence_cache` returns the state with the
correspondence table untouched, and
`do_translation_checksum_correspond_to_source` returns `false` — so no
same-language correspondence entry can be created or observed. -/
theorem C9_same_language_degeneracy (st : CacheState) (lang : Language)
    (srcChecksum tgtChecksum pathHash : String) :
    find_correspondent_checksum st srcChecksum lang lang pathHash = (none, st) ∧
    set_checksum_pair_in_correspondence_cache st srcChecksum lang tgtChecksum lang pathHash
      = st ∧
    do_translation_checksum_correspond_to_source st srcChecksum lang tgtChecksum lang pathHash
      = (false, st) := by
  refine ⟨?_, ?_, ?_⟩
  · simp [find_correspondent_checksum]
  · simp [set_checksum_pair_in_correspondence_cache]
  · simp [do_translation_checksum_correspond_to_source]

/-! ## The correspondence scan: soundness of `findRows` -/

/-- Any checksum returned by the row scan comes from a non-skipped row
(path cell equal to the query hash or empty) whose source cell matches and
whose target cell is that non-empty checksum. -/
theorem findRows_sound (srcName tgtName sc ph : String) :
    ∀ rows : List Row, ∀ c : String,
      findRows srcName tgtName sc ph rows = some c →
      ∃ row ∈ rows,
        (rget row PATH_CHECKSUM_COLUMN = ph ∨ rget row PATH_CHECKSUM_COLUMN = "") ∧
        rget row srcName = sc ∧ rget row tgtName = c ∧ c ≠ "" := by
  intro rows
  induction rows with
  | nil => intro c h; simp [findRows] at h
  | cons row rest ih =>
    intro c h
    by_cases hskip : rowSkipsPath row ph
    · rw [findRows, if_pos hskip] at h
      obtain ⟨r, hr, hprops⟩ := ih c h
      exact ⟨r, List.mem_cons_of_mem _ hr, hprops⟩
    · rw [findRows, if_neg hskip] at h
      by_cases hsrc : rget row srcName = sc
      · rw [if_pos hsrc] at h
        by_cases htgt : rget row tgtName = ""
        · rw [if_pos htgt] at h
          exact absurd h (by simp)
        · rw [if_neg htgt] at h
          have hc : rget row tgtName = c := by
            simpa using h
          have hpath : rget row PATH_CHECKSUM_COLUMN = ph ∨
              rget row PATH_CHECKSUM_COLUMN = "" := by
            unfold rowSkipsPath at hskip
            by_cases hemp : rget row PATH_CHECKSUM_COLUMN = ""
            · exact Or.inr hemp
            · left
              by_contra hne
              exact hskip (by simp [hemp, hne])
          exact ⟨row, List.mem_cons_self _ _, hpath, hsrc, hc, hc ▸ htgt⟩
      · rw [if_neg hsrc] at h
        obtain ⟨r, hr, hprops⟩ := ih c h
        exact ⟨r, List.mem_cons_of_mem _ hr, hprops⟩

/-- The scan stops with `none` at the first matching row whose target cell
is empty. -/
theorem findRows_stops_at_empty_cell (srcName tgtName sc ph : String) :
    ∀ (pre : List Row) (row : Row) (post : List Row),
      (∀ r ∈ pre, rowSkipsPath r ph = true ∨ rget r srcName ≠ sc) →
      rowSkipsPath row ph = false → rget row srcName = sc → rget row tgtName = "" →
      findRows srcName tgtName sc ph (pre ++ row :: post) = none := by
  intro pre
  induction pre with
  | nil =>
    intro row post _ hskip hsrc htgt
    rw [List.nil_append, findRows, if_neg (by simp [hskip]), if_pos hsrc, if_pos htgt]
  | cons r rest ih =>
    intro row post hpre hskip hsrc htgt
    rw [List.cons_append, findRows]
    rcases hpre r (List.mem_cons_self _ _) with hr | hr
    · rw [if_pos hr]
      exact ih row post (fun x hx => hpre x (List.mem_cons_of_mem _ hx)) hskip hsrc htgt
    · by_cases hrskip : rowSkipsPath r ph
      · rw [if_pos hrskip]
        exact ih row post (fun x hx => hpre x (List.mem_cons_of_mem _ hx)) hskip hsrc htgt
      · rw [if_neg hrskip, if_neg hr]
        exact ih row post (fun x hx => hpre x (List.mem_cons_of_mem _ hx)) hskip hsrc htgt

/-! ## C6: correspondence lookup scoping (corrected) -/

/-- The state of the C6 counterexample: one correspondence row whose
`path_checksum` cell is empty (a legacy row). -/
def c6State : CacheState :=
  ⟨some (["path_checksum", "English", "French"],
    [[("path_checksum", ""), ("English", "aaa"), ("French", "bbb")]]), [], []⟩

/-- C6 counterexample: the claim says `find_correspondent_checksum` returns
a checksum only from a row whose `path_checksum` equals the given path
hash, but a row whose `path_checksum` cell is empty answers a query for the
unrelated path hash `"p77"`: the lookup returns `"bbb"` although no row of
the state carries path hash `"p77"`. -/
theorem C6_counterexample :
    (find_correspondent_checksum c6State "aaa" .english .french "p77").1 = some "bbb" ∧
    (∀ fr ∈ c6State.corr.toList, ∀ row ∈ fr.2,
      rget row PATH_CHECKSUM_COLUMN ≠ "p77") := by
  constructor
  · decide
  · decide

/-- C6 (amended): `find_correspondent_checksum` returns a target checksum
only from a row whose `path_checksum` cell equals the given path hash *or
is empty* (legacy rows match every path) and whose source-language column
equals the source checksum; and it returns `none` when the first such
matching row's target-language cell is the empty string. -/
theorem C6_find_correspondent_scoping :
    (∀ (st : CacheState) (srcChecksum : String) (srcLang tgtLang : Language)
        (pathHash c : String),
      (find_correspondent_checksum st srcChecksum srcLang tgtLang pathHash).1 = some c →
      ∃ fields rows, read_correspondence_cache st = some (fields, rows) ∧
        ∃ row ∈ rows,
          (rget row PATH_CHECKSUM_COLUMN = pathHash ∨ rget row PATH_CHECKSUM_COLUMN = "") ∧
          rget row srcLang.toName = srcChecksum ∧
          rget row tgtLang.toName = c ∧ c ≠ "") ∧
    (∀ (st : CacheState) (srcChecksum : String) (srcLang tgtLang : Language)
        (pathHash : String) (fields : List String) (pre : List Row) (row : Row)
        (post : List Row),
      read_correspondence_cache st = some (fields, pre ++ row :: post) →
      (∀ r ∈ pre, rowSkipsPath r pathHash = true ∨ rget r srcLang.toName ≠ srcChecksum) →
      rowSkipsPath row pathHash = false →
      rget row srcLang.toName = srcChecksum →
      rget row tgtLang.toName = "" →
      (find_correspondent_checksum st srcChecksum srcLang tgtLang pathHash).1 = none) := by
  constructor
  · intro st srcChecksum srcLang tgtLang pathHash c h
    unfold find_correspondent_checksum at h
    by_cases heq : srcLang = tgtLang
    · rw [if_pos heq] at h
      exact absurd h (by simp)
    · rw [if_neg heq] at h
      match hread : read_correspondence_cache st with
      | none =>
        rw [hread] at h
        exact absurd h (by simp)
      | some (fields, rows) =>
        rw [hread] at h
        dsimp only at h
        by_cases hmem : srcLang.toName ∈ fields ∧ tgtLang.toName ∈ fields
        · rw [if_pos hmem] at h
          obtain ⟨row, hrow, hprops⟩ :=
            findRows_sound srcLang.toName tgtLang.toName srcChecksum pathHash rows c
              (by simpa using h)
          exact ⟨fields, rows, rfl, row, hrow, hprops⟩
        · rw [if_neg hmem] at h
          exact absurd h (by simp)
  · intro st srcChecksum srcLang tgtLang pathHash fields pre row post hread hpre hskip hsrc htgt
    unfold find_correspondent_checksum
    by_cases heq : srcLang = tgtLang
    · rw [if_pos heq]
    · rw [if_neg heq, hread]
      dsimp only
      by_cases hmem : srcLang.toName ∈ fields ∧ tgtLang.toName ∈ fields
      · rw [if_pos hmem]
        simp only
        rw [findRows_stops_at_empty_cell srcLang.toName tgtLang.toName srcChecksum pathHash
          pre row post hpre hskip hsrc htgt]
      · rw [if_neg hmem]

/-! ## Shape lemmas for the cache operations -/

theorem ensure_corr_blobs (st : CacheState) :
    (ensure_correspondence_cache st).blobs = st.blobs := by
  unfold ensure_correspondence_cache
  cases st.corr <;> rfl

theorem ensure_corr_pathMap (st : CacheState) :
    (ensure_correspondence_cache st).pathMap = st.pathMap := by
  unfold ensure_correspondence_cache
  cases st.corr <;> rfl

/-- `set_checksum_pair_in_correspondence_cache` only rewrites the
correspondence CSV: blob files are untouched. -/
theorem set_checksum_pair_blobs (st : CacheState) (sc : String) (sl : Language) (tc : String)
    (tl : Language) (ph : String) :
    (set_checksum_pair_in_correspondence_cache st sc sl tc tl ph).blobs = st.blobs := by
  unfold set_checksum_pair_in_correspondence_cache
  by_cases h : sl = tl
  · rw [if_pos h]
  · rw [if_neg h]
    dsimp only
    split <;>
      · simp only [write_correspondence_cache]
        by_cases hn : (read_correspondence_cache st).isNone <;>
          simp [hn, ensure_corr_blobs]

theorem set_checksum_pair_pathMap (st : CacheState) (sc : String) (sl : Language) (tc : String)
    (tl : Language) (ph : String) :
    (set_checksum_pair_in_correspondence_cache st sc sl tc tl ph).pathMap = st.pathMap := by
  unfold set_checksum_pair_in_correspondence_cache
  by_cases h : sl = tl
  · rw [if_pos h]
  · rw [if_neg h]
    dsimp only
    split <;>
      · simp only [write_correspondence_cache]
        by_cases hn : (read_correspondence_cache st).isNone <;>
          simp [hn, ensure_corr_pathMap]

theorem register_path_hash_ok (env : Env) (st : CacheState) (rel ph : String)
    (st' : CacheState) (h : register_path_hash env st rel = .ok (ph, st')) :
    ph = env.pathChecksum (env.normalize rel) ∧ st'.blobs = st.blobs ∧ st'.corr = st.corr := by
  unfold register_path_hash at h
  dsimp only at h
  rcases hfind : st.pathMap.find? fun row => row.1 = env.pathChecksum (env.normalize rel) with
    _ | row
  · rw [hfind] at h
    dsimp only at h
    obtain ⟨h1, h2⟩ := by
      simpa using h
    exact ⟨h1.symm, by rw [← h2], by rw [← h2]⟩
  · rw [hfind] at h
    dsimp only at h
    by_cases hc : row.2 ≠ "" ∧ row.2 ≠ env.normalize rel
    · rw [if_pos hc] at h
      exact absurd h (by simp)
    · rw [if_neg hc] at h
      obtain ⟨h1, h2⟩ := by
        simpa using h
      exact ⟨h1.symm, by rw [← h2], by rw [← h2]⟩

theorem add_contents_fst (env : Env) (st : CacheState) (c : String) (lang : Language)
    (ph : String) : (add_contents_to_cache env st c lang ph).1 = env.hash c := by
  unfold add_contents_to_cache
  dsimp only
  split <;> rfl

theorem add_contents_corr (env : Env) (st : CacheState) (c : String) (lang : Language)
    (ph : String) : (add_contents_to_cache env st c lang ph).2.corr = st.corr := by
  unfold add_contents_to_cache
  dsimp only
  split <;> rfl

theorem add_contents_pathMap (env : Env) (st : CacheState) (c : String) (lang : Language)
    (ph : String) : (add_contents_to_cache env st c lang ph).2.pathMap = st.pathMap := by
  unfold add_contents_to_cache
  dsimp only
  split <;> rfl

theorem add_contents_blobExists (env : Env) (st : CacheState) (c : String) (lang : Language)
    (ph : String) :
    blobExists (add_contents_to_cache env st c lang ph).2.blobs lang.toName ph (env.hash c)
      = true := by
  unfold add_contents_to_cache
  dsimp only
  by_cases h : blobExists st.blobs lang.toName ph (env.hash c)
  · rw [if_pos h]
    exact h
  · rw [if_neg h]
    simp [blobExists]

theorem blobExists_add_contents_mono (env : Env) (st : CacheState) (c : String)
    (lang : Language) (ph : String) (l p cs : String)
    (h : blobExists st.blobs l p cs = true) :
    blobExists (add_contents_to_cache env st c lang ph).2.blobs l p cs = true := by
  unfold add_contents_to_cache
  dsimp only
  split
  · exact h
  · simp only [blobExists, List.any_append]
    simp only [blobExists] at h
    rw [h]
    simp

/-- The content-addressing invariant: every blob file's name is the hash of
its contents. -/
def contentAddressed (env : Env) (blobs : List Blob) : Prop :=
  ∀ b ∈ blobs, b.checksum = env.hash b.contents

theorem add_contents_contentAddressed (env : Env) (st : CacheState) (c : String)
    (lang : Language) (ph : String) (h : contentAddressed env st.blobs) :
    contentAddressed env (add_contents_to_cache env st c lang ph).2.blobs := by
  unfold add_contents_to_cache
  dsimp only
  split
  · exact h
  · intro b hb
    simp only [List.mem_append, List.mem_singleton] at hb
    rcases hb with hb | hb
    · exact h b hb
    · rw [hb]

/-! ## C10: `persist_pair` recomputes both checksums -/

/-- C10: `TranslationCacheCsv.persist_pair` ignores the checksum arguments
supplied by its caller and recomputes both from the texts: its result does
not depend on the supplied checksums at all, the blobs it writes are keyed
by the recomputed hashes of the texts under the registered path hash, and
it preserves the content-addressing invariant — wrong caller-supplied
checksums cannot break content-addressing. -/
theorem C10_persist_pair_recomputes_checksums :
    (∀ (env : Env) (st : CacheState) (c1 c2 c1' c2' : String) (sl tl : Language)
        (stext ttext rel : String),
      persist_pair env st c1 c2 sl tl stext ttext rel =
        persist_pair env st c1' c2' sl tl stext ttext rel) ∧
    (∀ (env : Env) (st : CacheState) (c1 c2 : String) (sl tl : Language)
        (stext ttext rel : String) (st' : CacheState),
      persist_pair env st c1 c2 sl tl stext ttext rel = .ok st' →
      blobExists st'.blobs sl.toName (env.pathChecksum (env.normalize rel)) (env.hash stext)
        = true ∧
      blobExists st'.blobs tl.toName (env.pathChecksum (env.normalize rel)) (env.hash ttext)
        = true ∧
      (contentAddressed env st.blobs → contentAddressed env st'.blobs)) := by
  constructor
  · intro env st c1 c2 c1' c2' sl tl stext ttext rel
    rfl
  · intro env st c1 c2 sl tl stext ttext rel st' h
    unfold persist_pair at h
    rcases hreg : register_path_hash env st rel with e | ⟨ph, st1⟩
    · rw [hreg] at h
      exact absurd h (by simp [Bind.bind, Except.bind])
    · rw [hreg] at h
      obtain ⟨hph, hblobs1, _⟩ := register_path_hash_ok env st rel ph st1 hreg
      simp only [Bind.bind, Except.bind] at h
      have hst' : st' = set_checksum_pair_in_correspondence_cache
          (add_contents_to_cache env
            (add_contents_to_cache env st1 stext sl ph).2 ttext tl ph).2
          (add_contents_to_cache env st1 stext sl ph).1 sl
          (add_contents_to_cache env
            (add_contents_to_cache env st1 stext sl ph).2 ttext tl ph).1 tl ph := by
        simpa using h.symm
      subst hst'
      subst hph
      refine ⟨?_, ?_, ?_⟩
      · rw [set_checksum_pair_blobs]
        exact blobExists_add_contents_mono _ _ _ _ _ _ _ _
          (add_contents_blobExists env st1 stext sl _)
      · rw [set_checksum_pair_blobs]
        exact add_contents_blobExists env _ ttext tl _
      · intro hca
        rw [set_checksum_pair_blobs]
        apply add_contents_contentAddressed
        apply add_contents_contentAddressed
        rw [hblobs1]
        exact hca

/-! ## C3: retry policy -/

theorem qmin_qmin_right (a m : ℚ) : qmin (qmin a m) m = qmin a m := by
  unfold qmin
  split <;> simp_all

/-- Doubling a capped delay and re-capping equals capping the doubled
delay, for a non-negative cap. -/
theorem qmin_double_cap (d m : ℚ) (hm : 0 ≤ m) (i : Nat) :
    qmin (qmin (d * 2) m * 2 ^ i) m = qmin (d * 2 ^ (i + 1)) m := by
  unfold qmin
  by_cases h : d * 2 ≤ m
  · rw [if_pos h]
    have : d * 2 * 2 ^ i = d * 2 ^ (i + 1) := by ring
    rw [this]
  · rw [if_neg h]
    push_neg at h
    have h2 : (0 : ℚ) < d * 2 := lt_of_le_of_lt hm h
    have hpow : (1 : ℚ) ≤ 2 ^ i := one_le_pow₀ (by norm_num)
    have hm2 : m ≤ m * 2 ^ i := le_mul_of_one_le_right hm hpow
    have hd : m * 2 ^ i ≤ d * 2 * 2 ^ i := by
      apply mul_le_mul_of_nonneg_right (le_of_lt h)
      positivity
    have hles : ¬ d * 2 ^ (i + 1) ≤ m ∨ d * 2 ^ (i + 1) = m := by
      by_cases hcase : d * 2 ^ (i + 1) ≤ m
      · right
        have : d * 2 ^ (i + 1) = d * 2 * 2 ^ i := by ring
        have hge : m ≤ d * 2 ^ (i + 1) := by
          rw [this]
          exact le_trans hm2 hd
        exact le_antisymm hcase hge
      · left
        exact hcase
    have hms : ¬ m * 2 ^ i ≤ m ∨ m * 2 ^ i = m := by
      by_cases hcase : m * 2 ^ i ≤ m
      · right
        exact le_antisymm hcase hm2
      · left
        exact hcase
    rcases hms with hms | hms <;> rcases hles with hles | hles <;>
      simp [hms, hles]

/-- The backoff sleeps of the retry loop, in closed form: the `i`-th sleep
is `min(d·2^i, max_delay)` for the entry delay `d`. -/
theorem retryLoop_sleeps (run : Nat → Except RunFailure String) (maxD : ℚ) (hm : 0 ≤ maxD) :
    ∀ (remaining idx : Nat) (d : ℚ),
      (retryLoop run maxD idx remaining d).sleeps =
        (List.range ((retryLoop run maxD idx remaining d).calls - 1)).map
          fun i => qmin (d * 2 ^ i) maxD := by
  intro remaining
  induction remaining with
  | zero => intro idx d; simp [retryLoop]
  | succ r ih =>
    intro idx d
    rw [retryLoop]
    match hrun : run idx with
    | .ok s => simp
    | .error (.apiError e) => simp
    | .error .overloaded =>
      by_cases hr : r = 0
      · rw [if_pos hr]
        simp
      · rw [if_neg hr]
        dsimp only
        rw [ih (idx + 1) (qmin (d * 2) maxD)]
        have hcalls : (retryLoop run maxD (idx + 1) r (qmin (d * 2) maxD)).calls ≠ 0 := by
          cases r with
          | zero => exact absurd rfl hr
          | succ r' =>
            rw [retryLoop]
            match run (idx + 1) with
            | .ok s => simp
            | .error (.apiError e) => simp
            | .error .overloaded =>
              by_cases hr' : r' = 0
              · rw [if_pos hr']
                simp
              · rw [if_neg hr']
                simp
        rcases Nat.exists_eq_succ_of_ne_zero hcalls with ⟨k, hk⟩
        rw [hk]
        simp only [Nat.add_sub_cancel, Nat.succ_sub_one, List.range_succ_eq_map,
          List.map_cons, List.map_map]
        congr 1
        · simp [qmin, pow_zero, mul_one]
        · apply List.map_congr_left
          intro i _
          simp only [Function.comp]
          exact qmin_double_cap d maxD hm i

/-- After `j` overloads, a success at attempt `j` (0-based) within the
budget returns that result with `j + 1` calls. -/
theorem retryLoop_success (run : Nat → Except RunFailure String) (maxD : ℚ) :
    ∀ (j remaining idx : Nat) (d : ℚ) (s : String),
      (∀ i < j, run (idx + i) = .error .overloaded) → run (idx + j) = .ok s →
      j < remaining →
      (retryLoop run maxD idx remaining d).result = .ok s ∧
        (retryLoop run maxD idx remaining d).calls = j + 1 := by
  intro j
  induction j with
  | zero =>
    intro remaining idx d s _ hj hlt
    match remaining, hlt with
    | r + 1, _ =>
      rw [retryLoop]
      rw [Nat.add_zero] at hj
      rw [hj]
      exact ⟨rfl, rfl⟩
  | succ n ih =>
    intro remaining idx d s hpre hj hlt
    match remaining, hlt with
    | r + 1, hlt =>
      rw [retryLoop]
      have h0 : run idx = .error .overloaded := by
        simpa using hpre 0 (Nat.succ_pos n)
      rw [h0]
      have hr : r ≠ 0 := by
        omega
      rw [if_neg hr]
      dsimp only
      have hpre' : ∀ i < n, run (idx + 1 + i) = .error .overloaded := by
        intro i hi
        have := hpre (i + 1) (by omega)
        rwa [show idx + (i + 1) = idx + 1 + i by omega] at this
      have hj' : run (idx + 1 + n) = .ok s := by
        rwa [show idx + 1 + n = idx + (n + 1) by omega]
      obtain ⟨hres, hcalls⟩ := ih r (idx + 1) (qmin (d * 2) maxD) s hpre' hj' (by omega)
      exact ⟨hres, by rw [hcalls]⟩

/-- A non-overload error at attempt `j` within the budget propagates
immediately with `j + 1` calls. -/
theorem retryLoop_apiError (run : Nat → Except RunFailure String) (maxD : ℚ) :
    ∀ (j remaining idx : Nat) (d : ℚ) (e : String),
      (∀ i < j, run (idx + i) = .error .overloaded) →
      run (idx + j) = .error (.apiError e) → j < remaining →
      (retryLoop run maxD idx remaining d).result = .error (.apiError e) ∧
        (retryLoop run maxD idx remaining d).calls = j + 1 := by
  intro j
  induction j with
  | zero =>
    intro remaining idx d e _ hj hlt
    match remaining, hlt with
    | r + 1, _ =>
      rw [retryLoop]
      rw [Nat.add_zero] at hj
      rw [hj]
      exact ⟨rfl, rfl⟩
  | succ n ih =>
    intro remaining idx d e hpre hj hlt
    match remaining, hlt with
    | r + 1, hlt =>
      rw [retryLoop]
      have h0 : run idx = .error .overloaded := by
        simpa using hpre 0 (Nat.succ_pos n)
      rw [h0]
      have hr : r ≠ 0 := by
        omega
      rw [if_neg hr]
      dsimp only
      have hpre' : ∀ i < n, run (idx + 1 + i) = .error .overloaded := by
        intro i hi
        have := hpre (i + 1) (by omega)
        rwa [show idx + (i + 1) = idx + 1 + i by omega] at this
      have hj' : run (idx + 1 + n) = .error (.apiError e) := by
        rwa [show idx + 1 + n = idx + (n + 1) by omega]
      obtain ⟨hres, hcalls⟩ := ih r (idx + 1) (qmin (d * 2) maxD) e hpre' hj' (by omega)
      exact ⟨hres, by rw [hcalls]⟩

/-- When every attempt overloads, the loop re-raises the overload after the
final attempt, having used the whole budget. -/
theorem retryLoop_exhaust (run : Nat → Except RunFailure String) (maxD : ℚ) :
    ∀ (remaining idx : Nat) (d : ℚ),
      (∀ i < remaining, run (idx + i) = .error .overloaded) → 1 ≤ remaining →
      (retryLoop run maxD idx remaining d).result = .error .overloaded ∧
        (retryLoop run maxD idx remaining d).calls = remaining := by
  intro remaining
  induction remaining with
  | zero => intro idx d _ h1; omega
  | succ r ih =>
    intro idx d hall _
    rw [retryLoop]
    have h0 : run idx = .error .overloaded := by
      simpa using hall 0 (Nat.succ_pos r)
    rw [h0]
    by_cases hr : r = 0
    · rw [if_pos hr]
      subst hr
      exact ⟨rfl, rfl⟩
    · rw [if_neg hr]
      dsimp only
      have hall' : ∀ i < r, run (idx + 1 + i) = .error .overloaded := by
        intro i hi
        have := hall (i + 1) (by omega)
        rwa [show idx + (i + 1) = idx + 1 + i by omega] at this
      obtain ⟨hres, hcalls⟩ := ih (idx + 1) (qmin (d * 2) maxD) hall' (by omega)
      exact ⟨hres, by rw [hcalls]⟩

/-- C3: retry policy of `_translate_with_retry`.  (1) A non-overload error
at attempt `j` propagates immediately after `j + 1` call attempts; (2) when
every attempt overloads, the overload is re-raised after exactly `attempts`
calls; (3) a success at attempt `j` returns after `j + 1` calls; (4) the
`i`-th sleep between attempts is `min(initial_delay · 2^i, max_delay)` —
sleep `min(delay, max_delay)` then double capped at `max_delay`; (5) for
the defaults (attempts 5, initial 1.0 s, max 16.0 s) and a model that
overloads twice then returns "OK", there are exactly three call attempts
and two sleeps of 1.0 and 2.0 seconds. -/
theorem C3_retry_policy :
    (∀ (cfg : RetryConfig) (run : Nat → Except RunFailure String) (j : Nat) (e : String),
      (∀ i < j, run i = .error .overloaded) → run j = .error (.apiError e) →
      j < cfg.attempts →
      (_translate_with_retry cfg run).result = .error (.apiError e) ∧
        (_translate_with_retry cfg run).calls = j + 1) ∧
    (∀ (cfg : RetryConfig) (run : Nat → Except RunFailure String),
      (∀ i < cfg.attempts, run i = .error .overloaded) → 1 ≤ cfg.attempts →
      (_translate_with_retry cfg run).result = .error .overloaded ∧
        (_translate_with_retry cfg run).calls = cfg.attempts) ∧
    (∀ (cfg : RetryConfig) (run : Nat → Except RunFailure String) (j : Nat) (s : String),
      (∀ i < j, run i = .error .overloaded) → run j = .ok s → j < cfg.attempts →
      (_translate_with_retry cfg run).result = .ok s ∧
        (_translate_with_retry cfg run).calls = j + 1) ∧
    (∀ (cfg : RetryConfig) (run : Nat → Except RunFailure String), 0 ≤ cfg.maxDelay →
      (_translate_with_retry cfg run).sleeps =
        (List.range ((_translate_with_retry cfg run).calls - 1)).map
          fun i =>
            qmin ((if cfg.initialDelay = 0 then 1 else cfg.initialDelay) * 2 ^ i)
              cfg.maxDelay) ∧
    (_translate_with_retry defaultRetryConfig
        (fun i => if i < 2 then .error .overloaded else .ok "OK") =
      ⟨.ok "OK", 3, [1, 2]⟩) := by
  refine ⟨?_, ?_, ?_, ?_, ?_⟩
  · intro cfg run j e hpre hj hlt
    exact retryLoop_apiError run cfg.maxDelay j cfg.attempts 0 _ e
      (by simpa using hpre) (by simpa using hj) hlt
  · intro cfg run hall h1
    exact retryLoop_exhaust run cfg.maxDelay cfg.attempts 0 _ (by simpa using hall) h1
  · intro cfg run j s hpre hj hlt
    exact retryLoop_success run cfg.maxDelay j cfg.attempts 0 _ s
      (by simpa using hpre) (by simpa using hj) hlt
  · intro cfg run hm
    exact retryLoop_sleeps run cfg.maxDelay hm cfg.attempts 0 _
  · have hcfg : defaultRetryConfig = ⟨5, 1, 16⟩ := by
      decide
    rw [hcfg]
    unfold _translate_with_retry
    norm_num
    rw [retryLoop]
    norm_num
    rw [retryLoop]
    norm_num [qmin]
    rw [retryLoop]
    norm_num [RetryResult.mk.injEq]

/-! ## C7: `clear_missing_chunks` postconditions -/

theorem rget_foldl_clear (cols : List String) (row : Row) (k : String) :
    rget (cols.foldl (fun r c => rset r c "") row) k =
      if k ∈ cols then "" else rget row k := by
  induction cols generalizing row with
  | nil => simp
  | cons c cs ih =>
    rw [List.foldl_cons, ih]
    by_cases hk : k ∈ cs
    · simp [hk]
    · rw [if_neg hk]
      by_cases hkc : k = c
      · subst hkc
        simp [rget_rset_self]
      · rw [rget_rset_ne row c "" k hkc]
        have hknot : k ∉ c :: cs := by
          simp [hkc, hk]
        rw [if_neg hknot]

theorem src_not_mem_targetColumns (fields : List String) (srcCol : String) :
    srcCol ∉ targetColumns fields srcCol := by
  unfold targetColumns
  intro h
  have := (List.mem_filter.mp h).2
  simp at this

theorem path_not_mem_targetColumns (fields : List String) (srcCol : String) :
    PATH_CHECKSUM_COLUMN ∉ targetColumns fields srcCol := by
  unfold targetColumns
  intro h
  have := (List.mem_filter.mp h).2
  simp at this

/-- What survival of the per-row pass guarantees. -/
theorem clearMissingRow_some (blobs : List Blob) (srcCol : String) (tcols : List String)
    (row row' : Row) (n : Nat) (pr : String × String)
    (hsrcn : srcCol ∉ tcols) (hpathn : PATH_CHECKSUM_COLUMN ∉ tcols)
    (h : clearMissingRow blobs srcCol tcols row = some (row', n, pr)) :
    pr = (rget row PATH_CHECKSUM_COLUMN, rget row srcCol) ∧
    rget row' PATH_CHECKSUM_COLUMN = rget row PATH_CHECKSUM_COLUMN ∧
    rget row' srcCol = rget row srcCol ∧
    rget row srcCol ≠ "" ∧
    _checksum_file_exists blobs srcCol (rget row PATH_CHECKSUM_COLUMN) (rget row srcCol)
      = true ∧
    (∀ c ∈ tcols, rget row' c ≠ "" →
      _checksum_file_exists blobs c (rget row PATH_CHECKSUM_COLUMN) (rget row' c) = true) ∧
    (∃ c ∈ tcols, rget row' c ≠ "") := by
  unfold clearMissingRow at h
  by_cases h1 : rget row srcCol = ""
  · rw [if_pos h1] at h
    exact absurd h (by simp)
  · rw [if_neg h1] at h
    by_cases h2 : _checksum_file_exists blobs srcCol (rget row PATH_CHECKSUM_COLUMN)
        (rget row srcCol) = true
    · rw [if_neg (by simp [h2])] at h
      dsimp only at h
      by_cases h3 : (tcols.countP fun col =>
          rget row col ≠ "" ∧ _checksum_file_exists blobs col
            (rget row PATH_CHECKSUM_COLUMN) (rget row col)) = 0
      · rw [if_pos h3] at h
        exact absurd h (by simp)
      · rw [if_neg h3] at h
        simp only [Option.some_inj] at h
        have hrow' : row' = (tcols.filter fun col =>
            rget row col ≠ "" ∧ ¬ _checksum_file_exists blobs col
              (rget row PATH_CHECKSUM_COLUMN) (rget row col) = true).foldl
            (fun r col => rset r col "") row :=
          (congrArg Prod.fst h).symm
        have hpr : pr = (rget row PATH_CHECKSUM_COLUMN, rget row srcCol) :=
          (congrArg (fun x => x.2.2) h).symm
        have hcell : ∀ k, rget row' k =
            if k ∈ (tcols.filter fun col =>
              rget row col ≠ "" ∧ ¬ _checksum_file_exists blobs col
                (rget row PATH_CHECKSUM_COLUMN) (rget row col) = true) then ""
            else rget row k := by
          intro k
          rw [hrow']
          exact rget_foldl_clear _ row k
        have hpath' : rget row' PATH_CHECKSUM_COLUMN = rget row PATH_CHECKSUM_COLUMN := by
          rw [hcell]
          rw [if_neg fun hmem => hpathn (List.mem_of_mem_filter hmem)]
        have hsrc' : rget row' srcCol = rget row srcCol := by
          rw [hcell]
          rw [if_neg fun hmem => hsrcn (List.mem_of_mem_filter hmem)]
        refine ⟨hpr, hpath', hsrc', h1, h2, ?_, ?_⟩
        · intro c hc hne
          rw [hcell] at hne ⊢
          by_cases hmem : c ∈ tcols.filter fun col =>
              rget row col ≠ "" ∧ ¬ _checksum_file_exists blobs col
                (rget row PATH_CHECKSUM_COLUMN) (rget row col) = true
          · rw [if_pos hmem] at hne
            exact absurd rfl hne
          · rw [if_neg hmem] at hne ⊢
            by_cases hex : _checksum_file_exists blobs c (rget row PATH_CHECKSUM_COLUMN)
                (rget row c) = true
            · exact hex
            · exfalso
              apply hmem
              rw [List.mem_filter]
              refine ⟨hc, ?_⟩
              simp only [decide_eq_true_eq]
              exact ⟨hne, hex⟩
        · have hex : ∃ c ∈ tcols, rget row c ≠ "" ∧ _checksum_file_exists blobs c
              (rget row PATH_CHECKSUM_COLUMN) (rget row c) = true := by
            by_contra hno
            push_neg at hno
            apply h3
            rw [List.countP_eq_zero]
            intro c hc
            simp only [decide_eq_true_eq, not_and]
            intro hcc
            exact hno c hc hcc
          obtain ⟨c, hc, hcc, hcex⟩ := hex
          refine ⟨c, hc, ?_⟩
          rw [hcell, if_neg]
          · exact hcc
          · intro hmem
            have := (List.mem_filter.mp hmem).2
            simp only [decide_eq_true_eq] at this
            exact this.2 hcex
    · rw [if_pos (by simp [h2])] at h
      exact absurd h (by simp)

/-- A zero-removal, zero-clearing pass leaves every row unchanged. -/
theorem clearMissing_nochange (blobs : List Blob) (srcCol : String) (tcols : List String) :
    ∀ rows : List Row,
      ((rows.map (clearMissingRow blobs srcCol tcols)).countP Option.isNone = 0) →
      (((rows.map (clearMissingRow blobs srcCol tcols)).filterMap
          (Option.map fun x => x.2.1)).sum = 0) →
      ((rows.map (clearMissingRow blobs srcCol tcols)).filterMap
        (Option.map Prod.fst)) = rows := by
  intro rows
  induction rows with
  | nil => intro _ _; rfl
  | cons row rest ih =>
    intro hnone hsum
    simp only [List.map_cons] at hnone hsum ⊢
    match hout : clearMissingRow blobs srcCol tcols row with
    | none =>
      rw [hout] at hnone
      simp [List.countP_cons] at hnone
    | some (row', n, pr) =>
      rw [hout] at hnone hsum
      simp only [List.filterMap_cons, Option.map_some', List.countP_cons,
        List.sum_cons] at hnone hsum ⊢
      have hn : n = 0 ∧ ((rest.map (clearMissingRow blobs srcCol tcols)).filterMap
          (Option.map fun x => x.2.1)).sum = 0 := by
        constructor <;> omega
      have hrow : row' = row := by
        unfold clearMissingRow at hout
        by_cases h1 : rget row srcCol = ""
        · rw [if_pos h1] at hout
          exact absurd hout (by simp)
        · rw [if_neg h1] at hout
          by_cases h2 : _checksum_file_exists blobs srcCol (rget row PATH_CHECKSUM_COLUMN)
              (rget row srcCol) = true
          · rw [if_neg (by simp [h2])] at hout
            dsimp only at hout
            by_cases h3 : (tcols.countP fun col =>
                rget row col ≠ "" ∧ _checksum_file_exists blobs col
                  (rget row PATH_CHECKSUM_COLUMN) (rget row col)) = 0
            · rw [if_pos h3] at hout
              exact absurd hout (by simp)
            · rw [if_neg h3] at hout
              simp only [Option.some_inj] at hout
              have hlen : (tcols.filter fun col =>
                  rget row col ≠ "" ∧ ¬ _checksum_file_exists blobs col
                    (rget row PATH_CHECKSUM_COLUMN) (rget row col) = true).length = 0 := by
                have := congrArg (fun x => x.2.1) hout
                simp only at this
                omega
              have hempty := List.length_eq_zero.mp hlen
              have := congrArg Prod.fst hout
              simp only at this
              rw [← this, hempty, List.foldl_nil]
          · rw [if_pos (by simp [h2])] at hout
            exact absurd hout (by simp)
      rw [hrow]
      have hnone' : ((rest.map (clearMissingRow blobs srcCol tcols)).countP Option.isNone)
          = 0 := by
        simpa using hnone
      rw [ih hnone' hn.2]

theorem read_corr_path_mem (st : CacheState) (fields : List String) (rows : List Row)
    (hread : read_correspondence_cache st = some (fields, rows)) :
    PATH_CHECKSUM_COLUMN ∈ fields := by
  unfold read_correspondence_cache at hread
  match hc : st.corr with
  | none => rw [hc] at hread; exact absurd hread (by simp)
  | some fr =>
    rw [hc] at hread
    simp only [Option.map_some', Option.some_inj] at hread
    have : fields = _ensure_path_field fr.1 := (congrArg Prod.fst hread).symm
    rw [this]
    exact path_mem_ensure_path_field fr.1

/-- The shape of `clear_missing_chunks` when the correspondence CSV
exists: the surviving rows are the per-row pass's survivors and the blobs
are the non-source blobs plus the referenced source blobs. -/
theorem clear_missing_chunks_shape (st : CacheState) (lang : Language)
    (fields : List String) (rows : List Row)
    (hread : read_correspondence_cache st = some (fields, rows)) :
    read_correspondence_cache (clear_missing_chunks st lang).1 =
      some (fields, rows.filterMap fun r =>
        (clearMissingRow st.blobs lang.toName (targetColumns fields lang.toName) r).map
          Prod.fst) ∧
    (clear_missing_chunks st lang).1.blobs = st.blobs.filter fun b =>
      b.lang ≠ lang.toName ∨ (b.pathHash, b.checksum) ∈ (rows.filterMap fun r =>
        (clearMissingRow st.blobs lang.toName (targetColumns fields lang.toName) r).map
          fun x => x.2.2) := by
  unfold clear_missing_chunks
  rw [hread]
  dsimp only
  set outcomes := rows.map (clearMissingRow st.blobs lang.toName
    (targetColumns fields lang.toName)) with houtcomes
  have hfm1 : (rows.filterMap fun r =>
      (clearMissingRow st.blobs lang.toName (targetColumns fields lang.toName) r).map
        Prod.fst) = outcomes.filterMap (Option.map Prod.fst) := by
    rw [houtcomes, List.filterMap_map]
    rfl
  have hfm2 : (rows.filterMap fun r =>
      (clearMissingRow st.blobs lang.toName (targetColumns fields lang.toName) r).map
        fun x => x.2.2) = outcomes.filterMap (Option.map fun x => x.2.2) := by
    rw [houtcomes, List.filterMap_map]
    rfl
  rw [hfm1, hfm2]
  by_cases hch : outcomes.countP Option.isNone > 0 ∨
      (outcomes.filterMap (Option.map fun x => x.2.1)).sum > 0
  · rw [if_pos hch]
    constructor
    · unfold write_correspondence_cache read_correspondence_cache
      simp only [Option.map_some', Option.some_inj]
      rw [ensure_path_field_of_mem fields (read_corr_path_mem st fields rows hread),
        ensure_path_field_of_mem fields (read_corr_path_mem st fields rows hread)]
    · rfl
  · rw [if_neg hch]
    push_neg at hch
    have hnone : outcomes.countP Option.isNone = 0 := by omega
    have hsum : (outcomes.filterMap (Option.map fun x => x.2.1)).sum = 0 := by omega
    have hrows := clearMissing_nochange st.blobs lang.toName
      (targetColumns fields lang.toName) rows hnone hsum
    rw [← houtcomes] at hrows
    constructor
    · show (read_correspondence_cache { st with blobs := _ }) = _
      unfold read_correspondence_cache at hread ⊢
      simp only at hread ⊢
      rw [hread, hrows]
    · rfl

theorem blobExists_iff (blobs : List Blob) (l p c : String) :
    blobExists blobs l p c = true ↔ ∃ b ∈ blobs, b.lang = l ∧ b.pathHash = p ∧
      b.checksum = c := by
  simp [blobExists]

theorem checksum_file_exists_iff (blobs : List Blob) (l p c : String) :
    _checksum_file_exists blobs l p c = true ↔ c ≠ "" ∧ blobExists blobs l p c = true := by
  simp [_checksum_file_exists]

theorem blobExists_filter_of (blobs : List Blob) (pred : Blob → Bool) (l p c : String)
    (h : blobExists blobs l p c = true)
    (hp : ∀ b ∈ blobs, b.lang = l → b.pathHash = p → b.checksum = c → pred b = true) :
    blobExists (blobs.filter pred) l p c = true := by
  rw [blobExists_iff] at h ⊢
  obtain ⟨b, hb, h1, h2, h3⟩ := h
  exact ⟨b, List.mem_filter.mpr ⟨hb, hp b hb h1 h2 h3⟩, h1, h2, h3⟩

/-- The S6 scenario row: `{path: p1, EN: hs, FR: ht, DE: hx}`. -/
def c7Row : Row :=
  [("path_checksum", "p1"), ("English", "hs"), ("French", "ht"), ("German", "hx")]

/-- The S6 scenario state: the row's English and French blobs exist on
disk, the German blob `hx` is missing. -/
def c7State : CacheState :=
  ⟨some (["path_checksum", "English", "French", "German"], [c7Row]),
   [⟨"English", "p1", "hs", "Hello"⟩, ⟨"French", "p1", "ht", "Bonjour"⟩], [("p1", "doc.md")]⟩

/-- C7: postconditions of `clear_missing_chunks(source_lang)`.  After the
pass, reading the correspondence CSV back: every surviving row has a
non-empty source cell whose blob still exists, every non-empty target cell
of a surviving row references an existing blob, every surviving row keeps
at least one non-empty target cell, and every remaining source-language
blob is referenced by some surviving row (no row cites a missing blob, no
source blob is unreferenced).  For the S6 row `{EN: hs, FR: ht, DE: hx}`
with only `hx`'s blob missing, only the DE cell is cleared and the stats
are `rows_removed = 0, fields_cleared = 1, source_chunks_removed = 0`. -/
theorem C7_clear_missing_chunks_postcondition :
    (∀ (st : CacheState) (lang : Language) (fields : List String) (rows : List Row),
      read_correspondence_cache st = some (fields, rows) →
      ∀ rows', read_correspondence_cache (clear_missing_chunks st lang).1 =
          some (fields, rows') →
      (∀ row' ∈ rows',
        rget row' lang.toName ≠ "" ∧
        blobExists (clear_missing_chunks st lang).1.blobs lang.toName
          (rget row' PATH_CHECKSUM_COLUMN) (rget row' lang.toName) = true ∧
        (∀ c ∈ targetColumns fields lang.toName, rget row' c ≠ "" →
          blobExists (clear_missing_chunks st lang).1.blobs c
            (rget row' PATH_CHECKSUM_COLUMN) (rget row' c) = true) ∧
        (∃ c ∈ targetColumns fields lang.toName, rget row' c ≠ "")) ∧
      (∀ b ∈ (clear_missing_chunks st lang).1.blobs, b.lang = lang.toName →
        ∃ row' ∈ rows', rget row' PATH_CHECKSUM_COLUMN = b.pathHash ∧
          rget row' lang.toName = b.checksum)) ∧
    ((clear_missing_chunks c7State .english).2 = ⟨0, 1, 0⟩ ∧
     read_correspondence_cache (clear_missing_chunks c7State .english).1 =
       some (["path_checksum", "English", "French", "German"],
         [[("path_checksum", "p1"), ("English", "hs"), ("French", "ht"), ("German", "")]]) ∧
     blobExists (clear_missing_chunks c7State .english).1.blobs "English" "p1" "hs" = true ∧
     blobExists (clear_missing_chunks c7State .english).1.blobs "French" "p1" "ht"
       = true) := by
  constructor
  · intro st lang fields rows hread rows' hread'
    obtain ⟨hshape1, hshape2⟩ := clear_missing_chunks_shape st lang fields rows hread
    have hrows' : rows' = rows.filterMap fun r =>
        (clearMissingRow st.blobs lang.toName (targetColumns fields lang.toName) r).map
          Prod.fst := by
      rw [hread'] at hshape1
      simpa using (congrArg (fun o => o.map Prod.snd) hshape1)
    constructor
    · intro row' hrow'
      rw [hrows'] at hrow'
      rw [List.mem_filterMap] at hrow'
      obtain ⟨row, hrowmem, hmap⟩ := hrow'
      match hout : clearMissingRow st.blobs lang.toName (targetColumns fields lang.toName)
          row with
      | none => rw [hout] at hmap; exact absurd hmap (by simp)
      | some (r', n, pr) =>
        rw [hout] at hmap
        have hr' : r' = row' := by simpa using hmap
        subst hr'
        obtain ⟨hpr, hpath, hsrc, hne, hex, htargets, hpresent⟩ :=
          clearMissingRow_some st.blobs lang.toName (targetColumns fields lang.toName)
            row r' n pr (src_not_mem_targetColumns fields lang.toName)
            (path_not_mem_targetColumns fields lang.toName) hout
        have hpairmem : (rget row PATH_CHECKSUM_COLUMN, rget row lang.toName) ∈
            rows.filterMap fun r =>
              (clearMissingRow st.blobs lang.toName (targetColumns fields lang.toName) r).map
                fun x => x.2.2 := by
          rw [List.mem_filterMap]
          exact ⟨row, hrowmem, by rw [hout, hpr]; rfl⟩
        obtain ⟨hne', hbe⟩ := (checksum_file_exists_iff _ _ _ _).mp hex
        refine ⟨by rw [hsrc]; exact hne', ?_, ?_, hpresent⟩
        · rw [hshape2, hpath, hsrc]
          apply blobExists_filter_of _ _ _ _ _ hbe
          intro b _ hbl hbp hbc
          simp only [Bool.or_eq_true, decide_eq_true_eq]
          right
          rw [hbp, hbc]
          exact hpairmem
        · intro c hc hcne
          have hcex := htargets c hc hcne
          obtain ⟨_, hcbe⟩ := (checksum_file_exists_iff _ _ _ _).mp hcex
          rw [hshape2, hpath]
          apply blobExists_filter_of _ _ _ _ _ hcbe
          intro b _ hbl _ _
          simp only [Bool.or_eq_true, decide_eq_true_eq]
          left
          rw [hbl]
          intro habs
          exact src_not_mem_targetColumns fields lang.toName (habs ▸ hc)
    · intro b hb hbl
      rw [hshape2] at hb
      rw [List.mem_filter] at hb
      obtain ⟨hbmem, hbpred⟩ := hb
      simp only [Bool.or_eq_true, decide_eq_true_eq] at hbpred
      rcases hbpred with hbad | hpair
      · exact absurd hbl hbad
      · rw [List.mem_filterMap] at hpair
        obtain ⟨row, hrowmem, hmap⟩ := hpair
        match hout : clearMissingRow st.blobs lang.toName (targetColumns fields lang.toName)
            row with
        | none => rw [hout] at hmap; exact absurd hmap (by simp)
        | some (r', n, pr) =>
          rw [hout] at hmap
          have hprv : pr = (b.pathHash, b.checksum) := by simpa using hmap
          obtain ⟨hpr, hpath, hsrc, _, _, _, _⟩ :=
            clearMissingRow_some st.blobs lang.toName (targetColumns fields lang.toName)
              row r' n pr (src_not_mem_targetColumns fields lang.toName)
              (path_not_mem_targetColumns fields lang.toName) hout
          refine ⟨r', ?_, ?_, ?_⟩
          · rw [hrows', List.mem_filterMap]
            exact ⟨row, hrowmem, by rw [hout]; rfl⟩
          · rw [hpath]
            have := congrArg Prod.fst (hpr.symm.trans hprv)
            simpa using this
          · rw [hsrc]
            have := congrArg Prod.snd (hpr.symm.trans hprv)
            simpa using this
  · refine ⟨by decide, by decide, by decide, by decide⟩

/-! ## C8: the keyword selector (spec-modelled) -/

theorem containsSub_iff (needle : List Char) :
    ∀ haystack : List Char, containsSub needle haystack = true ↔ needle <:+: haystack := by
  intro haystack
  induction haystack with
  | nil =>
    unfold containsSub
    constructor
    · intro h
      rw [List.isEmpty_iff] at h
      rw [h]
    · intro h
      rw [List.isEmpty_iff]
      exact List.eq_nil_of_infix_nil h
  | cons c rest ih =>
    unfold containsSub
    rw [Bool.or_eq_true, ih, List.isPrefixOf_iff_prefix]
    constructor
    · rintro (hpre | hinf)
      · exact hpre.isInfix
      · exact hinf.trans (List.suffix_cons c rest).isInfix
    · intro hinf
      rcases hinf with ⟨s, t, hst⟩
      match s, hst with
      | [], hst =>
        left
        exact ⟨t, by simpa using hst⟩
      | c' :: s', hst =>
        right
        refine ⟨s', t, ?_⟩
        have := hst
        simp only [List.cons_append, List.cons.injEq] at this
        exact this.2

/-- C8 (spec-modelled): in "all" mode (no language, no path selector) with
a keyword, the cache-clear removes exactly the rows whose source-language
blob content contains the keyword as a case-sensitive substring, clears no
fields, and reports the `(rows_removed, fields_cleared,
chunk_files_removed)` triple; the match predicate holds precisely when the
row's source blob exists and the keyword is an infix of its content. -/
theorem C8_clear_all_keyword_selector :
    ∀ (st : CacheState) (sourceLang : Language) (keyword : String)
      (fields : List String) (rows : List Row),
      read_correspondence_cache st = some (fields, rows) →
      (read_correspondence_cache (clear_all_with_keyword st sourceLang keyword).1 =
        some (fields, rows.filter fun row =>
          ! keywordRowMatches st.blobs sourceLang.toName keyword row)) ∧
      ((clear_all_with_keyword st sourceLang keyword).2.removedRows =
        (rows.filter (keywordRowMatches st.blobs sourceLang.toName keyword)).length) ∧
      ((clear_all_with_keyword st sourceLang keyword).2.clearedFields = 0) ∧
      (∀ row : Row, keywordRowMatches st.blobs sourceLang.toName keyword row = true ↔
        ∃ b, (st.blobs.find? fun bb => bb.lang = sourceLang.toName ∧
            bb.pathHash = rget row PATH_CHECKSUM_COLUMN ∧
            bb.checksum = rget row sourceLang.toName) = some b ∧
          keyword.data <:+: b.contents.data) := by
  intro st sourceLang keyword fields rows hread
  have hpath := read_corr_path_mem st fields rows hread
  refine ⟨?_, ?_, ?_, ?_⟩
  · unfold clear_all_with_keyword
    rw [hread]
    dsimp only
    unfold read_correspondence_cache
    simp only [Option.map_some', Option.some_inj]
    rw [ensure_path_field_of_mem fields hpath]
  · unfold clear_all_with_keyword
    rw [hread]
  · unfold clear_all_with_keyword
    rw [hread]
  · intro row
    unfold keywordRowMatches
    match hfind : st.blobs.find? fun bb => bb.lang = sourceLang.toName ∧
        bb.pathHash = rget row PATH_CHECKSUM_COLUMN ∧
        bb.checksum = rget row sourceLang.toName with
    | some blob =>
      rw [hfind, containsSub_iff]
      constructor
      · intro h
        exact ⟨blob, rfl, h⟩
      · rintro ⟨b, hb, hinf⟩
        have hbb : blob = b := by simpa using hb
        rwa [← hbb] at hinf
    | none =>
      rw [hfind]
      simp

/-! ## Orchestrator support: registration stability and lookup shapes -/

/-- The rows of the correspondence CSV (empty when the file is absent). -/
def corrRows (st : CacheState) : List Row := (st.corr.map Prod.snd).getD []

/-- The relative path is already recorded in `path_map.csv` with no
collision, so re-registering is a read-only no-op. -/
def pathRegistered (env : Env) (pm : List (String × String)) (rel : String) : Prop :=
  ∃ row, pm.find? (fun r => r.1 = env.pathChecksum (env.normalize rel)) = some row ∧
    ¬ (row.2 ≠ "" ∧ row.2 ≠ env.normalize rel)

theorem register_of_registered (env : Env) (st : CacheState) (rel : String)
    (h : pathRegistered env st.pathMap rel) :
    register_path_hash env st rel = .ok (env.pathChecksum (env.normalize rel), st) := by
  obtain ⟨row, hfind, hcol⟩ := h
  unfold register_path_hash
  dsimp only
  rw [hfind]
  dsimp only
  rw [if_neg hcol]

theorem registered_after_register (env : Env) (st : CacheState) (rel ph : String)
    (st1 : CacheState) (h : register_path_hash env st rel = .ok (ph, st1)) :
    pathRegistered env st1.pathMap rel := by
  unfold register_path_hash at h
  dsimp only at h
  match hfind : st.pathMap.find? fun r => r.1 = env.pathChecksum (env.normalize rel) with
  | some row =>
    rw [hfind] at h
    dsimp only at h
    by_cases hcol : row.2 ≠ "" ∧ row.2 ≠ env.normalize rel
    · rw [if_pos hcol] at h
      exact absurd h (by simp)
    · rw [if_neg hcol] at h
      have hst : st1 = st := by
        have := congrArg (fun x => match x with | .ok p => p.2 | .error _ => st) h
        simpa using this.symm
      rw [hst]
      exact ⟨row, hfind, hcol⟩
  | none =>
    rw [hfind] at h
    dsimp only at h
    have hst : st1 = { st with pathMap :=
        st.pathMap ++ [(env.pathChecksum (env.normalize rel), env.normalize rel)] } := by
      have := congrArg (fun x => match x with | .ok p => p.2 | .error _ => st) h
      simpa using this.symm
    rw [hst]
    refine ⟨(env.pathChecksum (env.normalize rel), env.normalize rel), ?_, by simp⟩
    rw [List.find?_append, hfind]
    simp

/-- When the correspondence CSV exists, `find_correspondent_checksum`
leaves the state untouched. -/
theorem find_correspondent_state (st : CacheState) (sc : String) (sl tl : Language)
    (ph : String) (hsome : st.corr.isSome) :
    (find_correspondent_checksum st sc sl tl ph).2 = st := by
  unfold find_correspondent_checksum
  by_cases he : sl = tl
  · rw [if_pos he]
  · rw [if_neg he]
    match hread : read_correspondence_cache st with
    | none =>
      exfalso
      unfold read_correspondence_cache at hread
      match hc : st.corr with
      | some fr => rw [hc] at hread; exact absurd hread (by simp)
      | none => rw [hc] at hsome; exact absurd hsome (by simp)
    | some (fields, rows) =>
      dsimp only
      split <;> rfl

theorem register_pathMap_grows (env : Env) (st : CacheState) (rel ph : String)
    (st1 : CacheState) (h : register_path_hash env st rel = .ok (ph, st1)) :
    st1.pathMap = st.pathMap ∨ st1.pathMap =
      st.pathMap ++ [(env.pathChecksum (env.normalize rel), env.normalize rel)] := by
  unfold register_path_hash at h
  dsimp only at h
  match hfind : st.pathMap.find? fun r => r.1 = env.pathChecksum (env.normalize rel) with
  | some row =>
    rw [hfind] at h
    dsimp only at h
    by_cases hcol : row.2 ≠ "" ∧ row.2 ≠ env.normalize rel
    · rw [if_pos hcol] at h
      exact absurd h (by simp)
    · rw [if_neg hcol] at h
      left
      have := congrArg (fun x => match x with | .ok p => p.2.pathMap | .error _ => st.pathMap) h
      simpa using this.symm
  | none =>
    rw [hfind] at h
    dsimp only at h
    right
    have := congrArg (fun x => match x with | .ok p => p.2.pathMap | .error _ => st.pathMap) h
    simpa using this.symm

/-- The state produced by `find_correspondent_checksum` for distinct
languages: blobs, path map and correspondence rows unchanged, and the
correspondence file exists afterwards. -/
theorem find_shape (st : CacheState) (sc : String) (sl tl : Language) (ph : String)
    (hne : sl ≠ tl) :
    (find_correspondent_checksum st sc sl tl ph).2.blobs = st.blobs ∧
    (find_correspondent_checksum st sc sl tl ph).2.pathMap = st.pathMap ∧
    (find_correspondent_checksum st sc sl tl ph).2.corr.isSome = true ∧
    corrRows (find_correspondent_checksum st sc sl tl ph).2 = corrRows st := by
  unfold find_correspondent_checksum
  rw [if_neg hne]
  match hread : read_correspondence_cache st with
  | none =>
    have hc : st.corr = none := by
      unfold read_correspondence_cache at hread
      match hcc : st.corr with
      | none => rfl
      | some fr => rw [hcc] at hread; exact absurd hread (by simp)
    simp [ensure_correspondence_cache, hc, corrRows]
  | some (fields, rows) =>
    have hc : st.corr.isSome = true := by
      unfold read_correspondence_cache at hread
      match hcc : st.corr with
      | none => rw [hcc] at hread; exact absurd hread (by simp)
      | some fr => simp [hcc]
    dsimp only
    split <;> exact ⟨rfl, rfl, hc, rfl⟩

/-- The observable shape after any successful `lookup`: the path is
registered, blobs are untouched, the correspondence file exists and its
rows are unchanged. -/
theorem lookup_ok_shape (env : Env) (st : CacheState) (sc : String) (sl tl : Language)
    (rel : String) (r : Option String) (st1 : CacheState) (hne : sl ≠ tl)
    (h : lookup env st sc sl tl rel = .ok (r, st1)) :
    pathRegistered env st1.pathMap rel ∧ st1.blobs = st.blobs ∧ st1.corr.isSome = true ∧
      corrRows st1 = corrRows st := by
  unfold lookup at h
  match hreg : register_path_hash env st rel with
  | .error e =>
    rw [hreg] at h
    exact absurd h (by simp [Bind.bind, Except.bind])
  | .ok (ph, sta) =>
    rw [hreg] at h
    simp only [Bind.bind, Except.bind] at h
    obtain ⟨hph, hblobs, hcorr⟩ := register_path_hash_ok env st rel ph sta hreg
    have hregd := registered_after_register env st rel ph sta hreg
    obtain ⟨hfb, hfp, hfc, hfr⟩ := find_shape sta sc sl tl ph hne
    have hst1 : st1 = (find_correspondent_checksum sta sc sl tl ph).2 := by
      match hfind : find_correspondent_checksum sta sc sl tl ph with
      | (none, stb) =>
        rw [hfind] at h
        simpa using (congrArg (fun x => match x with
          | .ok p => p.2 | .error _ => sta) h).symm
      | (some c, stb) =>
        rw [hfind] at h
        simpa using (congrArg (fun x => match x with
          | .ok p => p.2 | .error _ => sta) h).symm
    rw [hst1]
    refine ⟨?_, ?_, hfc, ?_⟩
    · rw [hfp]
      exact hregd
    · rw [hfb, hblobs]
    · rw [hfr]
      unfold corrRows
      rw [hcorr]

/-! ## Set-then-find: a persisted pair is found again -/

theorem add_lang_mem_self (fields : List String) (rows : List Row) (lang : Language) :
    lang.toName ∈ (add_lang_to_cache_data fields rows lang).1 := by
  unfold add_lang_to_cache_data
  dsimp only
  by_cases h : lang.toName ∈ _ensure_path_field fields
  · rw [if_pos h]
    exact h
  · rw [if_neg h]
    simp

theorem add_lang_mem_mono (fields : List String) (rows : List Row) (lang : Language)
    (x : String) (h : x ∈ fields) : x ∈ (add_lang_to_cache_data fields rows lang).1 := by
  unfold add_lang_to_cache_data
  dsimp only
  by_cases hm : lang.toName ∈ _ensure_path_field fields
  · rw [if_pos hm]
    exact mem_ensure_path_field fields x h
  · rw [if_neg hm]
    exact List.mem_append_left _ (mem_ensure_path_field fields x h)

theorem ensure_path_field_idem (fields : List String) :
    _ensure_path_field (_ensure_path_field fields) = _ensure_path_field fields :=
  ensure_path_field_of_mem _ (path_mem_ensure_path_field fields)

theorem findRows_setRows (srcName tgtName sc tc ph : String)
    (hst : srcName ≠ tgtName) (hpt : PATH_CHECKSUM_COLUMN ≠ tgtName)
    (hps : PATH_CHECKSUM_COLUMN ≠ srcName) (htc : tc ≠ "") :
    ∀ rows rows', setRows srcName tgtName sc tc ph rows = some rows' →
      findRows srcName tgtName sc ph rows' = some tc := by
  intro rows
  induction rows with
  | nil =>
    intro rows' h
    simp [setRows] at h
  | cons row rest ih =>
    intro rows' h
    unfold setRows at h
    by_cases hskip : rowSkipsPath row ph
    · rw [if_pos hskip] at h
      match hrec : setRows srcName tgtName sc tc ph rest with
      | none => rw [hrec] at h; exact absurd h (by simp)
      | some rest' =>
        rw [hrec] at h
        have hrows : rows' = row :: rest' := by
          simpa using h.symm
        subst hrows
        rw [findRows, if_pos hskip]
        exact ih rest' hrec
    · rw [if_neg hskip] at h
      by_cases hmatch : rget row srcName = sc
      · rw [if_pos hmatch] at h
        have hrows : rows' = rset (rset row PATH_CHECKSUM_COLUMN ph) tgtName tc :: rest := by
          simpa using h.symm
        subst hrows
        have hpathcell : rget (rset (rset row PATH_CHECKSUM_COLUMN ph) tgtName tc)
            PATH_CHECKSUM_COLUMN = ph := by
          rw [rget_rset_ne _ _ _ _ hpt, rget_rset_self]
        have hskip2 : ¬ rowSkipsPath (rset (rset row PATH_CHECKSUM_COLUMN ph) tgtName tc) ph
            = true := by
          unfold rowSkipsPath
          rw [hpathcell]
          simp
        rw [findRows, if_neg hskip2]
        have hsrccell : rget (rset (rset row PATH_CHECKSUM_COLUMN ph) tgtName tc) srcName
            = sc := by
          rw [rget_rset_ne _ _ _ _ hst, rget_rset_ne _ _ _ _ (Ne.symm hps)]
          exact hmatch
        rw [if_pos hsrccell, rget_rset_self, if_neg htc]
      · rw [if_neg hmatch] at h
        match hrec : setRows srcName tgtName sc tc ph rest with
        | none => rw [hrec] at h; exact absurd h (by simp)
        | some rest' =>
          rw [hrec] at h
          have hrows : rows' = row :: rest' := by
            simpa using h.symm
          subst hrows
          rw [findRows, if_neg hskip, if_neg hmatch]
          exact ih rest' hrec

theorem findRows_append_of_setRows_none (srcName tgtName sc tc ph : String) :
    ∀ rows l2, setRows srcName tgtName sc tc ph rows = none →
      findRows srcName tgtName sc ph (rows ++ l2) = findRows srcName tgtName sc ph l2 := by
  intro rows
  induction rows with
  | nil => intro l2 _; rfl
  | cons row rest ih =>
    intro l2 h
    unfold setRows at h
    by_cases hskip : rowSkipsPath row ph
    · rw [if_pos hskip] at h
      have hrec : setRows srcName tgtName sc tc ph rest = none := by
        match hr : setRows srcName tgtName sc tc ph rest with
        | none => rfl
        | some r' => rw [hr] at h; exact absurd h (by simp)
      rw [List.cons_append, findRows, if_pos hskip]
      exact ih l2 hrec
    · rw [if_neg hskip] at h
      by_cases hmatch : rget row srcName = sc
      · rw [if_pos hmatch] at h
        exact absurd h (by simp)
      · rw [if_neg hmatch] at h
        have hrec : setRows srcName tgtName sc tc ph rest = none := by
          match hr : setRows srcName tgtName sc tc ph rest with
          | none => rfl
          | some r' => rw [hr] at h; exact absurd h (by simp)
        rw [List.cons_append, findRows, if_neg hskip, if_neg hmatch]
        exact ih l2 hrec

theorem findRows_newRow (fields : List String) (srcName tgtName sc tc ph : String)
    (hst : srcName ≠ tgtName) (hpt : PATH_CHECKSUM_COLUMN ≠ tgtName)
    (hps : PATH_CHECKSUM_COLUMN ≠ srcName) (htc : tc ≠ "") :
    findRows srcName tgtName sc ph
      [newCorrespondenceRow fields srcName tgtName sc tc ph] = some tc := by
  unfold newCorrespondenceRow
  have hpathcell : rget (rset (rset (rset (fields.map fun f => (f, ""))
      PATH_CHECKSUM_COLUMN ph) srcName sc) tgtName tc) PATH_CHECKSUM_COLUMN = ph := by
    rw [rget_rset_ne _ _ _ _ hpt, rget_rset_ne _ _ _ _ hps, rget_rset_self]
  have hskip : ¬ rowSkipsPath (rset (rset (rset (fields.map fun f => (f, ""))
      PATH_CHECKSUM_COLUMN ph) srcName sc) tgtName tc) ph = true := by
    unfold rowSkipsPath
    rw [hpathcell]
    simp
  have hsrccell : rget (rset (rset (rset (fields.map fun f => (f, ""))
      PATH_CHECKSUM_COLUMN ph) srcName sc) tgtName tc) srcName = sc := by
    rw [rget_rset_ne _ _ _ _ hst, rget_rset_self]
  rw [findRows, if_neg hskip, if_pos hsrccell, rget_rset_self, if_neg htc]

/-- Looking the pair up right after `set_checksum_pair_in_correspondence_cache`
finds the target checksum (the state is untouched by the find). -/
theorem find_after_set (st : CacheState) (sc tc ph : String) (sl tl : Language)
    (hne : sl ≠ tl) (htc : tc ≠ "") :
    find_correspondent_checksum (set_checksum_pair_in_correspondence_cache st sc sl tc tl ph)
      sc sl tl ph =
      (some tc, set_checksum_pair_in_correspondence_cache st sc sl tc tl ph) := by
  have hname : sl.toName ≠ tl.toName := fun h => hne (Language.toName_injective h)
  have hps : PATH_CHECKSUM_COLUMN ≠ sl.toName := (Language.toName_ne_path_column sl).symm
  have hpt : PATH_CHECKSUM_COLUMN ≠ tl.toName := (Language.toName_ne_path_column tl).symm
  rw [set_checksum_pair_in_correspondence_cache]
  rw [if_neg hne]
  dsimp only
  have hsl1 : sl.toName ∈ (if sl.toName ∈ _ensure_path_field
      ((read_correspondence_cache st).getD ([], [])).1 then
      (_ensure_path_field ((read_correspondence_cache st).getD ([], [])).1,
        ((read_correspondence_cache st).getD ([], [])).2)
    else add_lang_to_cache_data
      (_ensure_path_field ((read_correspondence_cache st).getD ([], [])).1)
      ((read_correspondence_cache st).getD ([], [])).2 sl).1 := by
    by_cases hm : sl.toName ∈ _ensure_path_field
        ((read_correspondence_cache st).getD ([], [])).1
    · rw [if_pos hm]
      exact hm
    · rw [if_neg hm]
      exact add_lang_mem_self _ _ sl
  set fr1 := (if sl.toName ∈ _ensure_path_field
      ((read_correspondence_cache st).getD ([], [])).1 then
      (_ensure_path_field ((read_correspondence_cache st).getD ([], [])).1,
        ((read_correspondence_cache st).getD ([], [])).2)
    else add_lang_to_cache_data
      (_ensure_path_field ((read_correspondence_cache st).getD ([], [])).1)
      ((read_correspondence_cache st).getD ([], [])).2 sl) with hfr1
  have hsl2 : sl.toName ∈ (if tl.toName ∈ fr1.1 then fr1
      else add_lang_to_cache_data fr1.1 fr1.2 tl).1 := by
    by_cases hm : tl.toName ∈ fr1.1
    · rw [if_pos hm]
      exact hsl1
    · rw [if_neg hm]
      exact add_lang_mem_mono _ _ tl _ hsl1
  have htl2 : tl.toName ∈ (if tl.toName ∈ fr1.1 then fr1
      else add_lang_to_cache_data fr1.1 fr1.2 tl).1 := by
    by_cases hm : tl.toName ∈ fr1.1
    · rw [if_pos hm]
      exact hm
    · rw [if_neg hm]
      exact add_lang_mem_self _ _ tl
  set fr2 := (if tl.toName ∈ fr1.1 then fr1
      else add_lang_to_cache_data fr1.1 fr1.2 tl) with hfr2
  set stE := (if (read_correspondence_cache st).isNone then
      ensure_correspondence_cache st else st) with hstE
  match hset : setRows sl.toName tl.toName sc tc ph fr2.2 with
  | some rows' =>
    unfold find_correspondent_checksum
    rw [if_neg hne]
    have hreadW : read_correspondence_cache (write_correspondence_cache stE rows' fr2.1) =
        some (_ensure_path_field fr2.1, rows') := by
      unfold write_correspondence_cache read_correspondence_cache
      simp [ensure_path_field_idem]
    rw [hreadW]
    dsimp only
    rw [if_pos ⟨mem_ensure_path_field _ _ hsl2, mem_ensure_path_field _ _ htl2⟩]
    rw [findRows_setRows sl.toName tl.toName sc tc ph hname hpt hps htc fr2.2 rows' hset]
  | none =>
    unfold find_correspondent_checksum
    rw [if_neg hne]
    have hreadW : read_correspondence_cache (write_correspondence_cache stE
        (fr2.2 ++ [newCorrespondenceRow fr2.1 sl.toName tl.toName sc tc ph]) fr2.1) =
        some (_ensure_path_field fr2.1,
          fr2.2 ++ [newCorrespondenceRow fr2.1 sl.toName tl.toName sc tc ph]) := by
      unfold write_correspondence_cache read_correspondence_cache
      simp [ensure_path_field_idem]
    rw [hreadW]
    dsimp only
    rw [if_pos ⟨mem_ensure_path_field _ _ hsl2, mem_ensure_path_field _ _ htl2⟩]
    rw [findRows_append_of_setRows_none sl.toName tl.toName sc tc ph fr2.2 _ hset]
    rw [findRows_newRow fr2.1 sl.toName tl.toName sc tc ph hname hpt hps htc]

/-! ## Persist-then-lookup -/

theorem persist_eq_of_registered (env : Env) (st : CacheState) (c1 c2 : String)
    (sl tl : Language) (a b rel : String) (hreg : pathRegistered env st.pathMap rel) :
    persist_pair env st c1 c2 sl tl a b rel = .ok
      (set_checksum_pair_in_correspondence_cache
        (add_contents_to_cache env (add_contents_to_cache env st a sl
          (env.pathChecksum (env.normalize rel))).2 b tl
          (env.pathChecksum (env.normalize rel))).2
        (env.hash a) sl (env.hash b) tl (env.pathChecksum (env.normalize rel))) := by
  unfold persist_pair
  rw [register_of_registered env st rel hreg]
  simp only [Bind.bind, Except.bind]
  rw [add_contents_fst, add_contents_fst]

theorem read_cached_of_wf (env : Env) (st : CacheState) (tl : Language) (ph t : String)
    (hwf : contentAddressed env st.blobs) (hinj : Function.Injective env.hash)
    (hbe : blobExists st.blobs tl.toName ph (env.hash t) = true) :
    read_cached_contents_by_lang st (env.hash t) tl ph = some t := by
  unfold read_cached_contents_by_lang
  have hex : ∃ b, st.blobs.find? (fun b => b.lang = tl.toName ∧ b.pathHash = ph ∧
      b.checksum = env.hash t) = some b := by
    rw [← Option.isSome_iff_exists, List.find?_isSome]
    simpa [blobExists] using hbe
  obtain ⟨b, hfind⟩ := hex
  rw [hfind]
  have hmem := List.mem_of_find?_eq_some hfind
  have hp := List.find?_some hfind
  simp only [decide_eq_true_eq] at hp
  obtain ⟨_, _, hcs⟩ := hp
  have hhash : env.hash b.contents = env.hash t := by
    rw [← hwf b hmem, hcs]
  have hbc : b.contents = t := hinj hhash
  simp [hbc]

/-- After `persist_pair` writes a pair, looking it up returns the persisted
target text byte-identically and leaves the state unchanged. -/
theorem lookup_after_persist (env : Env) (st : CacheState) (c1 c2 : String)
    (sl tl : Language) (chunk translated rel : String) (st3 : CacheState)
    (hne : sl ≠ tl) (hreg : pathRegistered env st.pathMap rel)
    (hwf : contentAddressed env st.blobs) (hinj : Function.Injective env.hash)
    (hhne : env.hash translated ≠ "")
    (hok : persist_pair env st c1 c2 sl tl chunk translated rel = .ok st3) :
    lookup env st3 (env.hash chunk) sl tl rel = .ok (some translated, st3) := by
  have hpe := persist_eq_of_registered env st c1 c2 sl tl chunk translated rel hreg
  rw [hok] at hpe
  have hst3 : st3 = set_checksum_pair_in_correspondence_cache
      (add_contents_to_cache env (add_contents_to_cache env st chunk sl
        (env.pathChecksum (env.normalize rel))).2 translated tl
        (env.pathChecksum (env.normalize rel))).2
      (env.hash chunk) sl (env.hash translated) tl
      (env.pathChecksum (env.normalize rel)) := by
    simpa using hpe
  unfold lookup
  have hpm : st3.pathMap = st.pathMap := by
    rw [hst3, set_checksum_pair_pathMap, add_contents_pathMap, add_contents_pathMap]
  have hr := register_of_registered env st3 rel (hpm ▸ hreg)
  rw [hr]
  simp only [Bind.bind, Except.bind]
  have hfind : find_correspondent_checksum st3 (env.hash chunk) sl tl
      (env.pathChecksum (env.normalize rel)) = (some (env.hash translated), st3) := by
    rw [hst3]
    exact find_after_set _ _ _ _ sl tl hne hhne
  rw [hfind]
  dsimp only
  have hblobs : st3.blobs = (add_contents_to_cache env (add_contents_to_cache env st chunk sl
      (env.pathChecksum (env.normalize rel))).2 translated tl
      (env.pathChecksum (env.normalize rel))).2.blobs := by
    rw [hst3, set_checksum_pair_blobs]
  have hwf3 : contentAddressed env st3.blobs := by
    rw [hblobs]
    exact add_contents_contentAddressed env _ translated tl _
      (add_contents_contentAddressed env _ chunk sl _ hwf)
  have hbe : blobExists st3.blobs tl.toName (env.pathChecksum (env.normalize rel))
      (env.hash translated) = true := by
    rw [hblobs]
    exact add_contents_blobExists env _ translated tl _
  have hread := read_cached_of_wf env st3 tl (env.pathChecksum (env.normalize rel))
    translated hwf3 hinj hbe
  rw [hread]

/-! ## Strategy-run and example-retrieval shapes -/

theorem strategyPost_ne_code (env : Env) (kind : StratKind) (h : kind ≠ .code) (r : String) :
    strategyPost env kind r = env.postOf kind r := by
  cases kind <;> first
    | rfl
    | exact absurd rfl h

theorem strategyRun_ok (env : Env) (b : ModelBehavior) (kind : StratKind)
    (meta : MetaLike) (idx : Nat) (s : String) (hk : kind ≠ .code) (hb : b idx = .ok s) :
    strategyRun env (some b) kind meta idx = .ok (env.postOf kind s) := by
  unfold strategyRun
  dsimp only
  rw [if_neg hk, hb]
  dsimp only
  rw [strategyPost_ne_code env kind hk]

theorem strategyRun_error (env : Env) (b : ModelBehavior) (kind : StratKind)
    (meta : MetaLike) (idx : Nat) (hk : kind ≠ .code) (hb : ∀ s, b idx ≠ .ok s) :
    ∃ f : RunFailure, strategyRun env (some b) kind meta idx = .error f := by
  unfold strategyRun
  dsimp only
  rw [if_neg hk]
  match hbi : b idx with
  | .ok s => exact absurd hbi (hb s)
  | .overloaded => exact ⟨.overloaded, rfl⟩
  | .apiError e => exact ⟨.apiError e, rfl⟩

theorem retryLoop_error_of_no_ok (run : Nat → Except RunFailure String) (maxD : ℚ) :
    ∀ (remaining idx : Nat) (d : ℚ), (∀ i, ∃ f, run i = .error f) →
      ∃ f, (retryLoop run maxD idx remaining d).result = .error f := by
  intro remaining
  induction remaining with
  | zero =>
    intro idx d _
    exact ⟨.overloaded, rfl⟩
  | succ r ih =>
    intro idx d hall
    rw [retryLoop]
    obtain ⟨f, hf⟩ := hall idx
    rw [hf]
    match f with
    | .apiError e => exact ⟨.apiError e, rfl⟩
    | .overloaded =>
      by_cases hr : r = 0
      · rw [if_pos hr]
        exact ⟨.overloaded, rfl⟩
      · rw [if_neg hr]
        exact ih (idx + 1) (qmin (d * 2) maxD) hall

/-- With the path registered and the correspondence file present, the
example retrieval reads without changing the cache state. -/
theorem get_best_pair_stable (env : Env) (st : CacheState) (l t : Language)
    (txt rel : String) (hreg : pathRegistered env st.pathMap rel)
    (hsome : st.corr.isSome = true) :
    ∃ ex, get_best_pair_example_from_cache env st l t txt rel = .ok (ex, st) := by
  unfold get_best_pair_example_from_cache get_contents_by_checksum lookup
  simp only [register_of_registered env st rel hreg, Bind.bind, Except.bind]
  split
  · exact ⟨_, rfl⟩
  · split
    · exact ⟨_, rfl⟩
    · match hfc : find_correspondent_checksum st (get_checksum_for_best_match_in_dir env
          (dirFiles st.blobs l.toName (env.pathChecksum (env.normalize rel))) txt).1 l t
          (env.pathChecksum (env.normalize rel)) with
      | (resf, stb) =>
        have hfs := find_correspondent_state st (get_checksum_for_best_match_in_dir env
          (dirFiles st.blobs l.toName (env.pathChecksum (env.normalize rel))) txt).1 l t
          (env.pathChecksum (env.normalize rel)) hsome
        rw [hfc] at hfs
        dsimp only at hfs
        rw [hfs]
        cases resf with
        | none =>
          dsimp only
          cases read_cached_contents_by_lang st (get_checksum_for_best_match_in_dir env
              (dirFiles st.blobs l.toName (env.pathChecksum (env.normalize rel))) txt).1 l
              (env.pathChecksum (env.normalize rel)) with
          | none => exact ⟨_, rfl⟩
          | some src => exact ⟨_, rfl⟩
        | some tc =>
          dsimp only
          cases read_cached_contents_by_lang st (get_checksum_for_best_match_in_dir env
              (dirFiles st.blobs l.toName (env.pathChecksum (env.normalize rel))) txt).1 l
              (env.pathChecksum (env.normalize rel)) with
          | none =>
            cases read_cached_contents_by_lang st tc t (env.pathChecksum (env.normalize rel))
              with
            | none => exact ⟨_, rfl⟩
            | some tgt => exact ⟨_, rfl⟩
          | some src =>
            cases read_cached_contents_by_lang st tc t (env.pathChecksum (env.normalize rel))
              with
            | none => exact ⟨_, rfl⟩
            | some tgt => exact ⟨_, rfl⟩

/-! ## Reduction of `translate_or_fetch` on a cache miss -/

/-- On a cache miss with a placeholder-only chunk, `translate_or_fetch`
persists `(chunk, chunk)` and returns the chunk with zero model calls. -/
theorem translate_miss_ph_only (env : Env) (cfg : RetryConfig)
    (caller : Option ModelBehavior) (meta : Meta) (st st1 : CacheState)
    (hws : ¬ stripIsEmpty meta.chunk = true)
    (hne : meta.srcLang ≠ meta.tgtLang)
    (hmap : (STRATEGY_MAP meta.docType meta.chunkType).isSome = true)
    (hph : chunk_contains_ph_only env meta.chunk meta.chunkType = true)
    (hlookup : lookup env st (env.hash meta.chunk) meta.srcLang meta.tgtLang meta.relPath =
      .ok (none, st1)) :
    translate_or_fetch env cfg caller meta st =
      match persist_pair env st1 (env.hash meta.chunk) (env.hash meta.chunk)
          meta.srcLang meta.tgtLang meta.chunk meta.chunk meta.relPath with
      | .error e => ⟨.error (.valueError e), st1, 0⟩
      | .ok st3 => ⟨.ok meta.chunk, st3, 0⟩ := by
  obtain ⟨hreg, _, hcorr, _⟩ := lookup_ok_shape env st (env.hash meta.chunk)
    meta.srcLang meta.tgtLang meta.relPath none st1 hne hlookup
  obtain ⟨ex, hex⟩ := get_best_pair_stable env st1 meta.srcLang meta.tgtLang meta.chunk
    meta.relPath hreg hcorr
  unfold translate_or_fetch
  rw [if_neg hws]
  dsimp only
  rw [hlookup]
  dsimp only
  match hm : STRATEGY_MAP meta.docType meta.chunkType with
  | none => rw [hm] at hmap; exact absurd hmap (by simp)
  | some kind =>
    rw [hex]
    dsimp only
    rw [if_pos hph]

/-- On a cache miss with a translatable chunk, `translate_or_fetch` runs
the retry loop on some (possibly example-upgraded) meta and either persists
the result or wraps the failure in `ChunkTranslationFailed`. -/
theorem translate_miss_model (env : Env) (cfg : RetryConfig)
    (caller : Option ModelBehavior) (meta : Meta) (st st1 : CacheState) (kind : StratKind)
    (hws : ¬ stripIsEmpty meta.chunk = true)
    (hne : meta.srcLang ≠ meta.tgtLang)
    (hmap : STRATEGY_MAP meta.docType meta.chunkType = some kind)
    (hph : chunk_contains_ph_only env meta.chunk meta.chunkType = false)
    (hlookup : lookup env st (env.hash meta.chunk) meta.srcLang meta.tgtLang meta.relPath =
      .ok (none, st1)) :
    ∃ upgraded : MetaLike,
      translate_or_fetch env cfg caller meta st =
        match (_translate_with_retry cfg (strategyRun env caller kind upgraded)).result with
        | .error cause =>
          ⟨.error (.chunkTranslationFailed meta.chunk cause), st1,
            if callsModel caller kind then
              (_translate_with_retry cfg (strategyRun env caller kind upgraded)).calls
            else 0⟩
        | .ok translated =>
          match persist_pair env st1 (env.hash meta.chunk) (env.hash translated)
              meta.srcLang meta.tgtLang meta.chunk translated meta.relPath with
          | .error e =>
            ⟨.error (.valueError e), st1,
              if callsModel caller kind then
                (_translate_with_retry cfg (strategyRun env caller kind upgraded)).calls
              else 0⟩
          | .ok st3 =>
            ⟨.ok translated, st3,
              if callsModel caller kind then
                (_translate_with_retry cfg (strategyRun env caller kind upgraded)).calls
              else 0⟩ := by
  obtain ⟨hreg, _, hcorr, _⟩ := lookup_ok_shape env st (env.hash meta.chunk)
    meta.srcLang meta.tgtLang meta.relPath none st1 hne hlookup
  obtain ⟨ex, hex⟩ := get_best_pair_stable env st1 meta.srcLang meta.tgtLang meta.chunk
    meta.relPath hreg hcorr
  apply Exists.intro
  unfold translate_or_fetch
  rw [if_neg hws]
  dsimp only
  rw [hlookup]
  dsimp only
  rw [hmap]
  dsimp only
  rw [hex]
  dsimp only
  rw [if_neg (by rw [hph]; exact Bool.false_ne_true)]

/-! ## A concrete sample environment -/

/-- A small concrete environment for concrete scenarios: the hash prefixes
`#` (injective and never empty), path checksums prefix `P`, every chunk is
one text segment, post-processing is the identity. -/
def sampleEnv : Env :=
  { hash := fun s => "#" ++ s
    normalize := id
    pathChecksum := fun s => "P" ++ s
    segsOf := fun _ c => [⟨.text, c⟩]
    score := fun _ _ => 0
    promptOf := fun _ _ => "prompt"
    postOf := fun _ s => s }

/-- A plain-document chunk `"Hello"`, English → French. -/
def sampleMeta : Meta :=
  { chunk := "Hello", srcLang := .english, tgtLang := .french,
    docType := .other, chunkType := .other, vocab := none, relPath := "doc.md" }

/-- The same metadata with a whitespace-only chunk. -/
def wsMeta : Meta := { sampleMeta with chunk := " " }

/-- The state left behind by the first (missing) lookup of `"Hello"` from
the empty cache. -/
def sampleSt1 : CacheState :=
  match lookup sampleEnv emptyCacheState (sampleEnv.hash "Hello") .english .french
    "doc.md" with
  | .ok (_, s) => s
  | .error _ => emptyCacheState

theorem data_append_helper (a b : String) : (a ++ b).data = a.data ++ b.data := by
  cases a
  cases b
  rfl

theorem sampleHash_inj : Function.Injective fun s : String => "#" ++ s := by
  intro a b h
  have h2 : ("#" ++ a).data = ("#" ++ b).data := congrArg String.data h
  rw [data_append_helper, data_append_helper] at h2
  have h3 : a.data = b.data := List.append_cancel_left h2
  cases a
  cases b
  exact congrArg String.mk h3

theorem sampleHash_ne (s : String) : "#" ++ s ≠ "" := by
  intro h
  have h2 : ("#" ++ s).data = [] := by rw [h]
  rw [data_append_helper] at h2
  have h3 : String.data "#" = [] := (List.append_eq_nil.mp h2).1
  exact absurd h3 (by decide)

theorem contentAddressed_nilBlobs (env : Env) : contentAddressed env emptyCacheState.blobs := by
  intro b hb
  exact absurd hb (List.not_mem_nil b)

/-! ## Claim C2 -/

/-- C2 is refuted as stated: it quantifies over *every* chunk, but a
whitespace-only chunk is returned verbatim before the cache or the model is
touched (`if not chunk.strip(): return chunk`), so two identical runs make
zero model calls in total — not "exactly one" — and nothing is ever
persisted (the cache state stays empty). -/
theorem C2_counterexample :
    (translate_or_fetch sampleEnv defaultRetryConfig
        (some (fun _ => .ok "X")) wsMeta emptyCacheState).modelCalls +
      (translate_or_fetch sampleEnv defaultRetryConfig
        (some (fun _ => .ok "X")) wsMeta
        (translate_or_fetch sampleEnv defaultRetryConfig
          (some (fun _ => .ok "X")) wsMeta emptyCacheState).state).modelCalls ≠ 1 ∧
    (translate_or_fetch sampleEnv defaultRetryConfig
        (some (fun _ => .ok "X")) wsMeta emptyCacheState).state = emptyCacheState := by
  decide

/-- C2 (amended): cache-hit idempotence holds for non-whitespace chunks
that are not placeholder-only, under a mapped non-code strategy: with a
cache miss and a model answering `s0`, the first `translate_or_fetch` makes
exactly one model call and returns the post-processed answer; a second run
with the same inputs — whatever its model caller would do, even one that
raises on every call — makes zero model calls and returns the cached target
byte-identically, leaving the cache untouched. -/
theorem C2_cache_hit_idempotence (env : Env) (cfg : RetryConfig) (b1 : ModelBehavior)
    (meta : Meta) (st st1 : CacheState) (kind : StratKind) (s0 : String)
    (hws : ¬ stripIsEmpty meta.chunk = true)
    (hne : meta.srcLang ≠ meta.tgtLang)
    (hmap : STRATEGY_MAP meta.docType meta.chunkType = some kind)
    (hk : kind ≠ .code)
    (hph : chunk_contains_ph_only env meta.chunk meta.chunkType = false)
    (hhash : ∀ s, env.hash s ≠ "")
    (hinj : Function.Injective env.hash)
    (hwf : contentAddressed env st.blobs)
    (hatt : 1 ≤ cfg.attempts)
    (hlookup : lookup env st (env.hash meta.chunk) meta.srcLang meta.tgtLang meta.relPath =
      .ok (none, st1))
    (hb1 : b1 0 = .ok s0) :
    (translate_or_fetch env cfg (some b1) meta st).outcome = .ok (env.postOf kind s0) ∧
    (translate_or_fetch env cfg (some b1) meta st).modelCalls = 1 ∧
    ∀ b2 : Option ModelBehavior,
      (translate_or_fetch env cfg b2 meta
          (translate_or_fetch env cfg (some b1) meta st).state).outcome =
        .ok (env.postOf kind s0) ∧
      (translate_or_fetch env cfg b2 meta
          (translate_or_fetch env cfg (some b1) meta st).state).modelCalls = 0 ∧
      (translate_or_fetch env cfg b2 meta
          (translate_or_fetch env cfg (some b1) meta st).state).state =
        (translate_or_fetch env cfg (some b1) meta st).state := by
  obtain ⟨hreg1, hblobs1, hcorr1, hrows1⟩ := lookup_ok_shape env st (env.hash meta.chunk)
    meta.srcLang meta.tgtLang meta.relPath none st1 hne hlookup
  obtain ⟨upg, heq⟩ := translate_miss_model env cfg (some b1) meta st st1 kind hws hne hmap
    hph hlookup
  have hrun : strategyRun env (some b1) kind upg 0 = .ok (env.postOf kind s0) :=
    strategyRun_ok env b1 kind upg 0 s0 hk hb1
  have hretry := retryLoop_success (strategyRun env (some b1) kind upg) cfg.maxDelay 0
    cfg.attempts 0 (if cfg.initialDelay = 0 then 1 else cfg.initialDelay)
    (env.postOf kind s0) (fun i hi => absurd hi (Nat.not_lt_zero i)) (by simpa using hrun)
    (by omega)
  have hres : (_translate_with_retry cfg (strategyRun env (some b1) kind upg)).result =
      .ok (env.postOf kind s0) := by
    unfold _translate_with_retry
    exact hretry.1
  have hcallsR : (_translate_with_retry cfg (strategyRun env (some b1) kind upg)).calls = 1 := by
    unfold _translate_with_retry
    exact hretry.2
  obtain ⟨st3, hpersist⟩ : ∃ st3, persist_pair env st1 (env.hash meta.chunk)
      (env.hash (env.postOf kind s0)) meta.srcLang meta.tgtLang meta.chunk
      (env.postOf kind s0) meta.relPath = .ok st3 :=
    ⟨_, persist_eq_of_registered env st1 (env.hash meta.chunk)
      (env.hash (env.postOf kind s0)) meta.srcLang meta.tgtLang meta.chunk
      (env.postOf kind s0) meta.relPath hreg1⟩
  have hcm : callsModel (some b1) kind = true := by
    simp [callsModel, hk]
  have hr1 : translate_or_fetch env cfg (some b1) meta st =
      ⟨.ok (env.postOf kind s0), st3, 1⟩ := by
    rw [heq, hres]
    dsimp only
    rw [hpersist]
    dsimp only
    rw [hcm, hcallsR]
    simp
  have hwf1 : contentAddressed env st1.blobs := by
    rw [hblobs1]
    exact hwf
  have hl2 := lookup_after_persist env st1 (env.hash meta.chunk)
    (env.hash (env.postOf kind s0)) meta.srcLang meta.tgtLang meta.chunk
    (env.postOf kind s0) meta.relPath st3 hne hreg1 hwf1 hinj
    (hhash (env.postOf kind s0)) hpersist
  have hr2 : ∀ b2 : Option ModelBehavior, translate_or_fetch env cfg b2 meta st3 =
      ⟨.ok (env.postOf kind s0), st3, 0⟩ := by
    intro b2
    unfold translate_or_fetch
    rw [if_neg hws]
    dsimp only
    rw [hl2]
  refine ⟨by rw [hr1], by rw [hr1], ?_⟩
  intro b2
  rw [hr1]
  dsimp only
  rw [hr2 b2]
  exact ⟨rfl, rfl, rfl⟩

/-- C2 witness: the amended idempotence theorem at the concrete sample
scenario (chunk `"Hello"` translated to `"Bonjour"` on the first run). -/
theorem C2_cache_hit_idempotence_witness :
    (translate_or_fetch sampleEnv defaultRetryConfig
        (some (fun _ => .ok "Bonjour")) sampleMeta emptyCacheState).outcome =
      .ok (sampleEnv.postOf .plain "Bonjour") ∧
    (translate_or_fetch sampleEnv defaultRetryConfig
        (some (fun _ => .ok "Bonjour")) sampleMeta emptyCacheState).modelCalls = 1 ∧
    ∀ b2 : Option ModelBehavior,
      (translate_or_fetch sampleEnv defaultRetryConfig b2 sampleMeta
          (translate_or_fetch sampleEnv defaultRetryConfig
            (some (fun _ => .ok "Bonjour")) sampleMeta emptyCacheState).state).outcome =
        .ok (sampleEnv.postOf .plain "Bonjour") ∧
      (translate_or_fetch sampleEnv defaultRetryConfig b2 sampleMeta
          (translate_or_fetch sampleEnv defaultRetryConfig
            (some (fun _ => .ok "Bonjour")) sampleMeta emptyCacheState).state).modelCalls =
        0 ∧
      (translate_or_fetch sampleEnv defaultRetryConfig b2 sampleMeta
          (translate_or_fetch sampleEnv defaultRetryConfig
            (some (fun _ => .ok "Bonjour")) sampleMeta emptyCacheState).state).state =
        (translate_or_fetch sampleEnv defaultRetryConfig
          (some (fun _ => .ok "Bonjour")) sampleMeta emptyCacheState).state :=
  C2_cache_hit_idempotence sampleEnv defaultRetryConfig (fun _ => .ok "Bonjour")
    sampleMeta emptyCacheState sampleSt1 .plain "Bonjour"
    (by decide) (by decide) (by decide) (by decide) (by decide)
    sampleHash_ne sampleHash_inj (contentAddressed_nilBlobs sampleEnv)
    (by decide) (by decide) rfl

/-! ## Claim C4 -/

/-- `sampleEnv` with a chunker that yields no segments at all, so every
chunk is placeholder-only. -/
def phEnv : Env := { sampleEnv with segsOf := fun _ _ => [] }

/-- The state left behind by the first (missing) lookup of `"Hello"` from
the empty cache under `phEnv`. -/
def phSt1 : CacheState :=
  match lookup phEnv emptyCacheState (phEnv.hash "Hello") .english .french "doc.md" with
  | .ok (_, s) => s
  | .error _ => emptyCacheState

/-- C4 is refuted as stated: it quantifies over *every* chunk with no Text
segments, but a whitespace-only chunk — whose segment stream is empty, so
it is placeholder-only — is returned before anything is persisted: the
cache state stays empty, so no `(src, src)` pair is written. -/
theorem C4_counterexample :
    chunk_contains_ph_only phEnv wsMeta.chunk wsMeta.chunkType = true ∧
    (translate_or_fetch phEnv defaultRetryConfig none wsMeta emptyCacheState).state =
      emptyCacheState ∧
    (translate_or_fetch phEnv defaultRetryConfig none wsMeta emptyCacheState).outcome =
      .ok wsMeta.chunk ∧
    (translate_or_fetch phEnv defaultRetryConfig none wsMeta emptyCacheState).modelCalls =
      0 := by
  decide

/-- C4 (amended): for a *non-whitespace* placeholder-only chunk under a
mapped strategy, `translate_or_fetch` makes zero model calls, returns the
chunk unchanged, and persists the pair with target equal to source: looking
the source checksum up afterwards finds the source text itself. -/
theorem C4_ph_only_passthrough (env : Env) (cfg : RetryConfig)
    (caller : Option ModelBehavior) (meta : Meta) (st st1 : CacheState)
    (hws : ¬ stripIsEmpty meta.chunk = true)
    (hne : meta.srcLang ≠ meta.tgtLang)
    (hmap : (STRATEGY_MAP meta.docType meta.chunkType).isSome = true)
    (hph : chunk_contains_ph_only env meta.chunk meta.chunkType = true)
    (hhash : ∀ s, env.hash s ≠ "")
    (hinj : Function.Injective env.hash)
    (hwf : contentAddressed env st.blobs)
    (hlookup : lookup env st (env.hash meta.chunk) meta.srcLang meta.tgtLang meta.relPath =
      .ok (none, st1)) :
    ∃ st3, translate_or_fetch env cfg caller meta st = ⟨.ok meta.chunk, st3, 0⟩ ∧
      lookup env st3 (env.hash meta.chunk) meta.srcLang meta.tgtLang meta.relPath =
        .ok (some meta.chunk, st3) := by
  obtain ⟨hreg1, hblobs1, hcorr1, hrows1⟩ := lookup_ok_shape env st (env.hash meta.chunk)
    meta.srcLang meta.tgtLang meta.relPath none st1 hne hlookup
  have heq := translate_miss_ph_only env cfg caller meta st st1 hws hne hmap hph hlookup
  obtain ⟨st3, hpersist⟩ : ∃ st3, persist_pair env st1 (env.hash meta.chunk)
      (env.hash meta.chunk) meta.srcLang meta.tgtLang meta.chunk meta.chunk meta.relPath =
      .ok st3 :=
    ⟨_, persist_eq_of_registered env st1 (env.hash meta.chunk) (env.hash meta.chunk)
      meta.srcLang meta.tgtLang meta.chunk meta.chunk meta.relPath hreg1⟩
  have hwf1 : contentAddressed env st1.blobs := by
    rw [hblobs1]
    exact hwf
  refine ⟨st3, ?_, ?_⟩
  · rw [heq, hpersist]
  · exact lookup_after_persist env st1 (env.hash meta.chunk) (env.hash meta.chunk)
      meta.srcLang meta.tgtLang meta.chunk meta.chunk meta.relPath st3 hne hreg1 hwf1 hinj
      (hhash meta.chunk) hpersist

/-- C4 witness: the amended passthrough theorem at the concrete sample
scenario (non-whitespace chunk `"Hello"` under the segment-free chunker). -/
theorem C4_ph_only_passthrough_witness :
    ∃ st3, translate_or_fetch phEnv defaultRetryConfig none sampleMeta emptyCacheState =
        ⟨.ok sampleMeta.chunk, st3, 0⟩ ∧
      lookup phEnv st3 (phEnv.hash sampleMeta.chunk) sampleMeta.srcLang sampleMeta.tgtLang
        sampleMeta.relPath = .ok (some sampleMeta.chunk, st3) :=
  C4_ph_only_passthrough phEnv defaultRetryConfig none sampleMeta emptyCacheState phSt1
    (by decide) (by decide) (by decide) (by decide)
    sampleHash_ne sampleHash_inj (contentAddressed_nilBlobs phEnv) (by decide)

/-! ## Claim C5 -/

/-- A markdown notebook cell holding the chunk `"Hello"`. -/
def sampleCell : NotebookCell :=
  { cellType := "markdown", source := "Hello", tags := [], srcChecksum := none,
    notTranslatedFlag := false }

/-- C5: failure atomicity.  When the model never returns a response (every
call raises), `translate_or_fetch` on a markdown notebook cell's chunk
fails with `ChunkTranslationFailed` carrying the original source text and
writes no cache entry (blob files and correspondence rows unchanged); the
notebook loop recovers the failure by writing the cell back with its
original source, tagging it `not-translated-due-to-exception`, and
continuing with the remaining cells. -/
theorem C5_failure_atomicity (env : Env) (cfg : RetryConfig) (b : ModelBehavior)
    (cell : NotebookCell) (srcLang tgtLang : Language) (vocab : Option String)
    (rel : String) (st st1 : CacheState)
    (hcode : ¬ cell.cellType = "code")
    (hws : ¬ stripIsEmpty cell.source = true)
    (hne : srcLang ≠ tgtLang)
    (hph : chunk_contains_ph_only env cell.source .myst = false)
    (hlookup : lookup env st (env.hash cell.source) srcLang tgtLang rel = .ok (none, st1))
    (hfail : ∀ i s, b i ≠ .ok s) :
    ∃ cause calls,
      translate_or_fetch env cfg (some b)
        { chunk := cell.source, srcLang := srcLang, tgtLang := tgtLang,
          docType := .jupyterNotebook, chunkType := .myst, vocab := vocab, relPath := rel }
        st = ⟨.error (.chunkTranslationFailed cell.source cause), st1, calls⟩ ∧
      st1.blobs = st.blobs ∧ corrRows st1 = corrRows st ∧
      ∃ cellOut : NotebookCell,
        translate_jupyter_cell env cfg (some b) cell srcLang tgtLang vocab rel st =
          .ok (cellOut, st1, calls) ∧
        cellOut.source = cell.source ∧
        notTranslatedTag ∈ cellOut.tags ∧
        cellOut.notTranslatedFlag = true ∧
        ∀ rest rest' st2 c2,
          translate_notebook env cfg (some b) srcLang tgtLang vocab rel rest st1 =
            .ok (rest', st2, c2) →
          translate_notebook env cfg (some b) srcLang tgtLang vocab rel (cell :: rest) st =
            .ok (cellOut :: rest', st2, calls + c2) := by
  obtain ⟨hreg1, hblobs1, hcorr1, hrows1⟩ := lookup_ok_shape env st (env.hash cell.source)
    srcLang tgtLang rel none st1 hne hlookup
  obtain ⟨upg, heq⟩ := translate_miss_model env cfg (some b)
    { chunk := cell.source, srcLang := srcLang, tgtLang := tgtLang,
      docType := .jupyterNotebook, chunkType := .myst, vocab := vocab, relPath := rel }
    st st1 .myst hws hne rfl hph hlookup
  have hall : ∀ i, ∃ f, strategyRun env (some b) .myst upg i = .error f := fun i =>
    strategyRun_error env b .myst upg i (by decide) (fun s => hfail i s)
  obtain ⟨cause, hres⟩ := retryLoop_error_of_no_ok (strategyRun env (some b) .myst upg)
    cfg.maxDelay cfg.attempts 0 (if cfg.initialDelay = 0 then 1 else cfg.initialDelay) hall
  have hres2 : (_translate_with_retry cfg (strategyRun env (some b) .myst upg)).result =
      .error cause := by
    unfold _translate_with_retry
    exact hres
  rw [hres2] at heq
  dsimp only at heq
  have hjc : translate_jupyter_cell env cfg (some b) cell srcLang tgtLang vocab rel st =
      .ok ({ cellType := cell.cellType, source := cell.source,
             tags := if notTranslatedTag ∈ cell.tags ++ ["needs_review"]
               then cell.tags ++ ["needs_review"]
               else cell.tags ++ ["needs_review"] ++ [notTranslatedTag],
             srcChecksum := some (env.hash cell.source), notTranslatedFlag := true },
           st1,
           if callsModel (some b) StratKind.myst then
             (_translate_with_retry cfg (strategyRun env (some b) StratKind.myst upg)).calls
           else 0) := by
    unfold translate_jupyter_cell
    dsimp only
    rw [if_neg hcode, heq]
  refine ⟨cause, _, heq, hblobs1, hrows1, _, hjc, rfl, ?_, rfl, ?_⟩
  · dsimp only
    by_cases hmem : notTranslatedTag ∈ cell.tags ++ ["needs_review"]
    · rw [if_pos hmem]
      exact hmem
    · rw [if_neg hmem]
      exact List.mem_append_right _ (List.mem_singleton_self _)
  · intro rest rest' st2 c2 hrest
    rw [translate_notebook, hjc]
    simp only [Bind.bind, Except.bind]
    rw [hrest]

/-- C5 witness: the failure-atomicity theorem at the concrete sample
scenario (a markdown cell, a model that is always overloaded). -/
theorem C5_failure_atomicity_witness :
    ∃ cause calls,
      translate_or_fetch sampleEnv defaultRetryConfig (some (fun _ => .overloaded))
        { chunk := sampleCell.source, srcLang := .english, tgtLang := .french,
          docType := .jupyterNotebook, chunkType := .myst, vocab := none,
          relPath := "doc.md" }
        emptyCacheState =
          ⟨.error (.chunkTranslationFailed sampleCell.source cause), sampleSt1, calls⟩ ∧
      sampleSt1.blobs = emptyCacheState.blobs ∧
      corrRows sampleSt1 = corrRows emptyCacheState ∧
      ∃ cellOut : NotebookCell,
        translate_jupyter_cell sampleEnv defaultRetryConfig (some (fun _ => .overloaded))
          sampleCell .english .french none "doc.md" emptyCacheState =
          .ok (cellOut, sampleSt1, calls) ∧
        cellOut.source = sampleCell.source ∧
        notTranslatedTag ∈ cellOut.tags ∧
        cellOut.notTranslatedFlag = true ∧
        ∀ rest rest' st2 c2,
          translate_notebook sampleEnv defaultRetryConfig (some (fun _ => .overloaded))
            .english .french none "doc.md" rest sampleSt1 = .ok (rest', st2, c2) →
          translate_notebook sampleEnv defaultRetryConfig (some (fun _ => .overloaded))
            .english .french none "doc.md" (sampleCell :: rest) emptyCacheState =
            .ok (cellOut :: rest', st2, calls + c2) :=
  C5_failure_atomicity sampleEnv defaultRetryConfig (fun _ => .overloaded) sampleCell
    .english .french none "doc.md" emptyCacheState sampleSt1
    (by decide) (by decide) (by decide) (by decide) (by decide)
    (fun i s h => nomatch h)

/-! ## Witnesses for the hypothesis-bearing claim theorems -/

/-- C3 witness: the success clause of the retry policy at a concrete run
that answers `"OK"` immediately. -/
theorem C3_retry_policy_witness :
    (_translate_with_retry defaultRetryConfig (fun _ => .ok "OK")).result = .ok "OK" ∧
    (_translate_with_retry defaultRetryConfig (fun _ => .ok "OK")).calls = 0 + 1 :=
  C3_retry_policy.2.2.1 defaultRetryConfig (fun _ => .ok "OK") 0 "OK"
    (fun i hi => absurd hi (Nat.not_lt_zero i)) rfl (by decide)

/-- C6 witness: the scoping theorem at the concrete legacy-row state. -/
theorem C6_find_correspondent_scoping_witness :
    ∃ fields rows, read_correspondence_cache c6State = some (fields, rows) ∧
      ∃ row ∈ rows,
        (rget row PATH_CHECKSUM_COLUMN = "p77" ∨ rget row PATH_CHECKSUM_COLUMN = "") ∧
        rget row Language.english.toName = "aaa" ∧
        rget row Language.french.toName = "bbb" ∧ "bbb" ≠ "" :=
  C6_find_correspondent_scoping.1 c6State "aaa" .english .french "p77" "bbb" (by decide)

/-- C7 witness: the postcondition theorem at the concrete S6 state. -/
theorem C7_clear_missing_chunks_postcondition_witness :
    (∀ row' ∈ ([[("path_checksum", "p1"), ("English", "hs"), ("French", "ht"),
        ("German", "")]] : List Row),
      rget row' Language.english.toName ≠ "" ∧
      blobExists (clear_missing_chunks c7State .english).1.blobs Language.english.toName
        (rget row' PATH_CHECKSUM_COLUMN) (rget row' Language.english.toName) = true ∧
      (∀ c ∈ targetColumns ["path_checksum", "English", "French", "German"]
          Language.english.toName, rget row' c ≠ "" →
        blobExists (clear_missing_chunks c7State .english).1.blobs c
          (rget row' PATH_CHECKSUM_COLUMN) (rget row' c) = true) ∧
      (∃ c ∈ targetColumns ["path_checksum", "English", "French", "German"]
          Language.english.toName, rget row' c ≠ "")) ∧
    (∀ b ∈ (clear_missing_chunks c7State .english).1.blobs,
      b.lang = Language.english.toName →
      ∃ row' ∈ ([[("path_checksum", "p1"), ("English", "hs"), ("French", "ht"),
          ("German", "")]] : List Row),
        rget row' PATH_CHECKSUM_COLUMN = b.pathHash ∧
        rget row' Language.english.toName = b.checksum) :=
  C7_clear_missing_chunks_postcondition.1 c7State .english
    ["path_checksum", "English", "French", "German"] [c7Row] (by decide)
    [[("path_checksum", "p1"), ("English", "hs"), ("French", "ht"), ("German", "")]]
    (by decide)

/-- C8 witness: the keyword selector theorem at the concrete S6 state with
keyword `"Hello"`. -/
theorem C8_clear_all_keyword_selector_witness :
    (read_correspondence_cache (clear_all_with_keyword c7State .english "Hello").1 =
      some (["path_checksum", "English", "French", "German"],
        ([c7Row].filter fun row =>
          ! keywordRowMatches c7State.blobs Language.english.toName "Hello" row))) ∧
    ((clear_all_with_keyword c7State .english "Hello").2.removedRows =
      ([c7Row].filter
        (keywordRowMatches c7State.blobs Language.english.toName "Hello")).length) ∧
    ((clear_all_with_keyword c7State .english "Hello").2.clearedFields = 0) ∧
    (∀ row : Row,
      keywordRowMatches c7State.blobs Language.english.toName "Hello" row = true ↔
      ∃ b, (c7State.blobs.find? fun bb => bb.lang = Language.english.toName ∧
          bb.pathHash = rget row PATH_CHECKSUM_COLUMN ∧
          bb.checksum = rget row Language.english.toName) = some b ∧
        "Hello".data <:+: b.contents.data) :=
  C8_clear_all_keyword_selector c7State .english "Hello"
    ["path_checksum", "English", "French", "German"] [c7Row] (by decide)

/-- The state persisted by the sample pair (wrong caller-supplied
checksums `"x"`/`"y"` on purpose). -/
def samplePersistState : CacheState :=
  match persist_pair sampleEnv emptyCacheState "x" "y" .english .french "Hello" "Bonjour"
    "doc.md" with
  | .ok s => s
  | .error _ => emptyCacheState

/-- C10 witness: the recomputed-checksum theorem at the concrete sample
pair with deliberately wrong caller-supplied checksums. -/
theorem C10_persist_pair_recomputes_checksums_witness :
    blobExists samplePersistState.blobs Language.english.toName
      (sampleEnv.pathChecksum (sampleEnv.normalize "doc.md")) (sampleEnv.hash "Hello")
      = true ∧
    blobExists samplePersistState.blobs Language.french.toName
      (sampleEnv.pathChecksum (sampleEnv.normalize "doc.md")) (sampleEnv.hash "Bonjour")
      = true ∧
    (contentAddressed sampleEnv emptyCacheState.blobs →
      contentAddressed sampleEnv samplePersistState.blobs) :=
  C10_persist_pair_recomputes_checksums.2 sampleEnv emptyCacheState "x" "y" .english
    .french "Hello" "Bonjour" "doc.md" samplePersistState (by decide)

end TransLib
